import Mathlib

/-!
Shallow embedding of the layout engine in `proplot/subplots.py`: grid
normalisation, per-panel property resolution, extent calculation, the
axis-sharing grouper, the two-pass draw orchestrator, the post-draw group
check, the panel-strip allocator, and the `axes_list` collection type.

Grids are lists of rows of integers (`Int`, since the Python code accepts
arbitrary integers); a cell holding Python `None` is modelled as `Option Int`
with `none`.  Panel indices are 0-based `Nat` as in the Python internals.
-/

namespace Proplot

/-! ### Generic list helpers (mirroring numpy primitives) -/

/-- Minimum of a list of naturals (`min(idx)` in numpy); 0 on empty input. -/
def listMin : List Nat → Nat
  | [] => 0
  | a :: l => l.foldl Nat.min a

/-- Maximum of a list of naturals (`max(idx)` in numpy); 0 on empty input. -/
def listMax : List Nat → Nat
  | [] => 0
  | a :: l => l.foldl Nat.max a

/-- Insert into a sorted list, dropping duplicates: helper for `np.unique`. -/
def insertSorted (a : Int) : List Int → List Int
  | [] => [a]
  | b :: l =>
    if a = b then b :: l
    else if a < b then a :: b :: l
    else b :: insertSorted a l

/-- `np.unique`: the distinct values of a list, sorted ascending. -/
def uniqueSorted (l : List Int) : List Int :=
  l.foldl (fun acc a => insertSorted a acc) []

/-- Element of `l` whose key is largest, the earliest such element on ties:
`l[np.argmax(key(l))]` (numpy `argmax` returns the first maximal index). -/
def argmaxFirst (key : Nat → Nat) : List Nat → Nat
  | [] => 0
  | [a] => a
  | a :: b :: l =>
    let c := argmaxFirst key (b :: l)
    if key a < key c then c else a

/-- Element of `l` whose key is smallest, the earliest such element on ties:
`l[np.argmin(key(l))]` (numpy `argmin` returns the first minimal index). -/
def argminFirst (key : Nat → Nat) : List Nat → Nat
  | [] => 0
  | [a] => a
  | a :: b :: l =>
    let c := argminFirst key (b :: l)
    if key c < key a then c else a

/-- Insertion step of a stable sort by key ascending. -/
def insertByKey (key : Nat → Nat) (a : Nat) : List Nat → List Nat
  | [] => [a]
  | b :: l => if key a ≤ key b then a :: b :: l else b :: insertByKey key a l

/-- Stable sort by key ascending: `l[np.argsort(key(l))]`. -/
def sortByKey (key : Nat → Nat) (l : List Nat) : List Nat :=
  l.foldr (insertByKey key) []

/-! ### Grid normaliser (`subplots`, lines 163-186) -/

/-- `array[array==None] = 0`: replace Python `None` cells by 0. -/
def replaceNone (grid : List (List (Option Int))) : List (List Int) :=
  grid.map (fun row => row.map (fun c => c.getD 0))

/-- `array[:,col-1] = 0` for each listed (1-based) column. -/
def applyEmptyCols (cols : List Nat) (grid : List (List Int)) : List (List Int) :=
  grid.map (fun row =>
    (List.range row.length).map (fun c =>
      if (c + 1) ∈ cols then 0 else row.getD c 0))

/-- `array[row-1,:] = 0` for each listed (1-based) row. -/
def applyEmptyRows (rows : List Nat) (grid : List (List Int)) : List (List Int) :=
  (List.range grid.length).map (fun r =>
    if (r + 1) ∈ rows then (grid.getD r []).map (fun _ => 0) else grid.getD r [])

/-- `np.unique(array[array!=0])`: the sorted distinct nonzero cell values. -/
def nonzeroUnique (grid : List (List Int)) : List Int :=
  uniqueSorted ((grid.flatMap id).filter (fun v => v ≠ 0))

/-- The numbering rule of lines 181-184: the sorted distinct nonzero values
must be exactly `1, …, num_axes`; on success return `num_axes`. -/
def normalizeCheck (grid : List (List Int)) : Except String Nat :=
  let nums := nonzeroUnique grid
  let num_axes := nums.length
  if nums = (List.range num_axes).map (fun k => Int.ofNat (k + 1)) then
    .ok num_axes
  else
    .error "Axes numbers must span integers 1 to num_axes (i.e. cannot skip over numbers)."

/-- The distinct positive values of a grid, sorted ascending (the quantity the
spec's numbering rule speaks about; the code uses the nonzero values). -/
def positiveUnique (grid : List (List Int)) : List Int :=
  uniqueSorted ((grid.flatMap id).filter (fun v => 0 < v))

/-! ### Extent calculator (`subplots`, lines 266-268) -/

/-- `np.where(array==v)` in row-major order: all `(row, col)` cells holding
value `v`. -/
def cellsOf (grid : List (List Int)) (v : Int) : List (Nat × Nat) :=
  (List.range grid.length).flatMap (fun r =>
    (List.range (grid.getD r []).length).filterMap (fun c =>
      if (grid.getD r []).getD c 0 = v then some (r, c) else none))

/-- `row_offset + [rows.min(), rows.max()+1]`: the half-open row extent of the
cells, shifted by the reserved row offset. -/
def rowExtent (row_offset : Nat) (cells : List (Nat × Nat)) : Nat × Nat :=
  (row_offset + listMin (cells.map Prod.fst),
   row_offset + listMax (cells.map Prod.fst) + 1)

/-- `col_offset + [cols.min(), cols.max()+1]`: the half-open column extent. -/
def colExtent (col_offset : Nat) (cells : List (Nat × Nat)) : Nat × Nat :=
  (col_offset + listMin (cells.map Prod.snd),
   col_offset + listMax (cells.map Prod.snd) + 1)

/-- `yrange`: row extents of panels `1..num_axes`, indexed by 0-based id. -/
def yrangeOf (grid : List (List Int)) (row_offset num_axes : Nat) : List (Nat × Nat) :=
  (List.range num_axes).map (fun k => rowExtent row_offset (cellsOf grid (Int.ofNat (k + 1))))

/-- `xrange`: column extents of panels `1..num_axes`, indexed by 0-based id. -/
def xrangeOf (grid : List (List Int)) (col_offset num_axes : Nat) : List (Nat × Nat) :=
  (List.range num_axes).map (fun k => colExtent col_offset (cellsOf grid (Int.ofNat (k + 1))))

/-! ### Axis-sharing grouper (`subplots`, lines 276-299) -/

/-- `np.where((ext[i,:]==ext).all(axis=1))[0]`: ids (ascending) whose extent
pair equals that of id `i`. -/
def matchingAxes (ext : List (Nat × Nat)) (i : Nat) : List Nat :=
  (List.range ext.length).filter (fun j => ext.getD j (0, 0) = ext.getD i (0, 0))

/-- State of one grouping scan: recorded groups, their bases, their sorted
member orders, and the bookkeeping `grouped` list. -/
structure GroupState where
  groups : List (List Nat)
  bases : List Nat
  sorteds : List (List Nat)
  grouped : List Nat
  deriving Repr, DecidableEq

/-- One iteration of the grouping loop at id `i`: record the matching set when
`i` is ungrouped and the set has more than one member, then append the
matching set to `grouped`. -/
def groupStep (ext : List (Nat × Nat)) (pick : List Nat → Nat)
    (srt : List Nat → List Nat) (s : GroupState) (i : Nat) : GroupState :=
  let m := matchingAxes ext i
  let s1 :=
    if i ∉ s.grouped ∧ 1 < m.length then
      { s with
        groups := s.groups ++ [m]
        bases := s.bases ++ [pick m]
        sorteds := s.sorteds ++ [srt m] }
    else s
  { s1 with grouped := s1.grouped ++ m }

/-- The full grouping scan over ids `0..ext.length-1`. -/
def buildGroups (ext : List (Nat × Nat)) (pick : List Nat → Nat)
    (srt : List Nat → List Nat) : GroupState :=
  (List.range ext.length).foldl (groupStep ext pick srt) ⟨[], [], [], []⟩

/-- x-sharing groups: panels with equal column extents, base the member with
the largest row-extent upper bound (`argmax(yrange[...,1])`), sorted order
descending by that bound (`argsort(...)[::-1]`). -/
def xShare (xrange yrange : List (Nat × Nat)) : GroupState :=
  buildGroups xrange
    (argmaxFirst (fun j => (yrange.getD j (0, 0)).2))
    (fun g => (sortByKey (fun j => (yrange.getD j (0, 0)).2) g).reverse)

/-- y-sharing groups: panels with equal row extents, base the member with the
smallest column-extent lower bound (`argmin(xrange[...,0])`), sorted order
ascending by that bound. -/
def yShare (xrange yrange : List (Nat × Nat)) : GroupState :=
  buildGroups yrange
    (argminFirst (fun j => (xrange.getD j (0, 0)).1))
    (sortByKey (fun j => (xrange.getD j (0, 0)).1))

/-! ### Draw orchestrator (`subplots`, lines 310-366)

Panel handles are modelled by the panel's 0-based id: `axs.getD i none = some i`
means panel `i` has been drawn.  Factory calls are recorded as trace events;
`createBase` is a pass-1 `add_subplot`/`panel_factory` call with no
`sharex`/`sharey` arguments, `createDep` a pass-2 call carrying the resolved
base handles, and `adoptX`/`adoptY` the post-hoc `_sharex_setup`/
`_sharey_setup` calls on an already-drawn handle. -/

inductive Event where
  | createBase (i : Nat)
  | createDep (i : Nat) (sx sy : Option Nat)
  | adoptX (i b : Nat)
  | adoptY (i b : Nat)
  deriving Repr, DecidableEq

structure DrawState where
  axs : List (Option Nat)
  trace : List Event
  deriving Repr, DecidableEq

/-- One pass-1 iteration: skip an already-created base, otherwise draw it
with no shared-axis wiring. -/
def pass1Step (s : DrawState) (i : Nat) : DrawState :=
  if (s.axs.getD i none).isSome then s
  else { axs := s.axs.set i (some i), trace := s.trace ++ [.createBase i] }

/-- Pass 1 (lines 310-327): draw every designated base (x bases then y bases),
skipping a base already created, with no shared-axis wiring. -/
def pass1 (n : Nat) (allbases : List Nat) : DrawState :=
  allbases.foldl pass1Step ⟨List.replicate n none, []⟩

/-- Lines 335-346 for one axis: if `i` lies in exactly one group, look up the
handle of that group's base; a not-yet-drawn base is the fatal ordering
error. -/
def resolveShare (groups : List (List Nat)) (bases : List Nat)
    (axs : List (Option Nat)) (i : Nat) : Except String (Option Nat) :=
  let igroup := (List.range groups.length).filter (fun k => i ∈ groups.getD k [])
  if igroup.length = 1 then
    match axs.getD (bases.getD (igroup.getD 0 0) 0) none with
    | none => .error "Something went wrong; shared x axes was not already drawn."
    | some h => .ok (some h)
  else .ok none

/-- Pass-2 body for panel `i` (lines 330-366): resolve the share sources, then
either adopt shared axes on an already-drawn base handle or create the panel
with the base handles passed at creation time. -/
def pass2Step (sharex sharey : Bool) (xg : List (List Nat)) (xgb : List Nat)
    (yg : List (List Nat)) (ygb : List Nat) (s : DrawState) (i : Nat) :
    Except String DrawState :=
  (if sharex then resolveShare xg xgb s.axs i else .ok none).bind fun sx =>
  (if sharey then resolveShare yg ygb s.axs i else .ok none).bind fun sy =>
  match s.axs.getD i none with
  | some hi =>
    let s1 :=
      match sx with
      | some b => if hi ≠ b then { s with trace := s.trace ++ [.adoptX i b] } else s
      | none => s
    let s2 :=
      match sy with
      | some b => if hi ≠ b then { s1 with trace := s1.trace ++ [.adoptY i b] } else s1
      | none => s1
    .ok s2
  | none =>
    .ok { axs := s.axs.set i (some i), trace := s.trace ++ [.createDep i sx sy] }

/-- `allgroups_base` (lines 311-315): the x bases then the y bases, as
enabled. -/
def allBases (sharex sharey : Bool) (xgb ygb : List Nat) : List Nat :=
  (if sharex then xgb else []) ++ (if sharey then ygb else [])

/-- Both passes: pass 1 over `xgroups_base ++ ygroups_base` (as enabled), then
pass 2 over all panels in id order. -/
def drawAxes (n : Nat) (sharex sharey : Bool) (xg : List (List Nat))
    (xgb : List Nat) (yg : List (List Nat)) (ygb : List Nat) :
    Except String DrawState :=
  (List.range n).foldlM (pass2Step sharex sharey xg xgb yg ygb)
    (pass1 n (allBases sharex sharey xgb ygb))

/-! ### Post-draw group check (`subplots`, lines 368-373)

The Python loop reads `for ax in axs: for name, groups in zip(('sharex',
'sharey'), (xgroups, ygroups)): if sum(ax in group for group in xgroups) > 1`.
Two slips are embedded faithfully: the membership test compares an axes
*handle* against integer ids (`Axes.__eq__ int` is always `False`, so
`ax in group` is always `False`), and the tested list is `xgroups` in both
branches of the zip, never the bound `groups`. -/

structure Handle where
  id : Nat
  deriving Repr, DecidableEq

/-- `ax in group` for an axes handle and a numpy array of integer ids:
elementwise equality of an `Axes` object with an `int` is `False`, so the
containment is always `False`. -/
def handleInIdGroup (_ax : Handle) (_group : List Nat) : Bool :=
  false

/-- `True` when the check raises for no panel (the loop body tests `xgroups`
regardless of which zip element is current, so `ygroups` is unused). -/
def checkGroups (axs : List Handle) (xgroups _ygroups : List (List Nat)) : Bool :=
  axs.all (fun ax =>
    [0, 1].all (fun _branch =>
      ((xgroups.map (fun group => if handleInIdGroup ax group then 1 else 0)).sum ≤ 1)))

/-! ### Panel-strip allocator (`_paneladd`, lines 378-398) -/

/-- The spans allocated by `_paneladd` for one edge: one strip per distinct
label value in `np.unique(panels)` order, spanning
`[offset + min(idx), offset + max(idx) + 1)` over the positions bearing that
label.  Note the loop iterates over every unique value, 0 included. -/
def paneladd (offset : Nat) (panels : List Int) : List (Nat × Nat) :=
  if panels = [] then []
  else
    (uniqueSorted panels).map (fun n =>
      let idx := (List.range panels.length).filter (fun j => panels.getD j 0 = n)
      (offset + listMin idx, offset + listMax idx + 1))

/-! ### Per-panel property resolver (`axes_dict`, lines 137-160)

Only the dictionary-shaped, non-`kw` input matters for the claims: a mapping
whose keys are one id or a tuple of ids.  A key is modelled as the list of
1-based ids `np.atleast_1d(nums)` yields; the dict itself as an association
list in insertion order. -/

/-- Python dict assignment `d[k] = v`: replace in place or append. -/
def dictInsert (k : Int) (v : α) : List (Int × α) → List (Int × α)
  | [] => [(k, v)]
  | (k1, v1) :: rest =>
    if k = k1 then (k, v) :: rest else (k1, v1) :: dictInsert k v rest

/-- The unfurling loop: `for nums, item in value.items(): for num in nums:
kw_out[num-1] = item`. -/
def unfurl (value : List (List Int × α)) : List (Int × α) :=
  value.foldl (fun kw_out p => p.1.foldl (fun acc num => dictInsert (num - 1) p.2 acc) kw_out) []

/-- `axes_dict` on a dict-shaped value: unfurl, then require the key set to be
exactly `{0, …, num_axes-1}`; the error carries `num_axes` and the **present**
1-based ids in sorted order (the f-string interpolates
`sorted(kw_out.keys())`, each `+1`). -/
def axes_dict (num_axes : Nat) (value : List (List Int × α)) :
    Except (Nat × List Int) (List (Int × α)) :=
  let kw_out := unfurl value
  if (kw_out.map Prod.fst).toFinset = ((List.range num_axes).map (fun k => Int.ofNat k)).toFinset then
    .ok kw_out
  else
    .error (num_axes, (uniqueSorted (kw_out.map Prod.fst)).map (fun i => i + 1))

/-! ### `axes_list` (lines 44-79) -/

/-- The list subclass returned to callers. -/
structure AxesList (α : Type) where
  toList : List α
  deriving Repr, DecidableEq

/-- A Python subscript: a plain integer or a (non-negative, already clamped)
slice `start:stop`. -/
inductive Key where
  | idx (i : Nat)
  | slc (start stop : Nat)
  deriving Repr, DecidableEq

/-- Result of `axes_list.__getitem__`: a bare element for an integer key, an
`axes_list` for a slice key. -/
inductive Item (α : Type) where
  | one (a : α)
  | many (l : AxesList α)
  deriving Repr, DecidableEq

/-- `__getitem__` (lines 53-58): delegate to `list.__getitem__`, and wrap the
result back into an `axes_list` exactly when the key is a slice; `none` models
the `IndexError` of an out-of-range integer. -/
def AxesList.getitem (l : AxesList α) : Key → Option (Item α)
  | .idx i => (l.toList.get? i).map .one
  | .slc a b => some (.many ⟨(l.toList.drop a).take (b - a)⟩)

/-- What one handle offers under a fixed attribute name: nothing, a plain
data attribute, or a bound method whose invocation returns `some` result or
`None`. -/
inductive Slot (α : Type) where
  | missing
  | field (v : α)
  | method (res : Option α)
  deriving Repr, DecidableEq

/-- `callable(getattr(ax, attr, None))` for one slot. -/
def Slot.isMethod : Slot α → Bool
  | .method _ => true
  | _ => false

/-- `getattr(ax, attr, None) is None` for one slot. -/
def Slot.isMissing : Slot α → Bool
  | .missing => true
  | _ => false

/-- Outcome of `axes_list.__getattr__` followed (for methods) by invoking the
returned iterator. -/
inductive GetattrOutcome (α : Type) where
  | invokedNone
  | invokedOne (r : α)
  | invokedMany (rs : List α)
  | attrOne (v : α)
  | attrMany (vs : List α)
  deriving Repr, DecidableEq

/-- `__getattr__` (lines 60-79), with the method branch already invoked: an
`AttributeError` when some handle lacks the attribute; when all values are
callable, fan the call out in order, keep non-`None` results, and unwrap a
singleton (or return `None` for no results); when none are callable, return
the single attribute or the list of attributes; otherwise the mixed error. -/
def AxesList.getattrBroadcast (l : AxesList (Slot α)) :
    Except String (GetattrOutcome α) :=
  let values := l.toList
  if values.any Slot.isMissing then
    .error "object has no method"
  else if values.all Slot.isMethod then
    let ret := values.filterMap (fun s => match s with | .method r => r | _ => none)
    match ret with
    | [] => .ok .invokedNone
    | [r] => .ok (.invokedOne r)
    | _ => .ok (.invokedMany ret)
  else if values.all (fun s => ¬s.isMethod) then
    let vs := values.filterMap (fun s => match s with | .field v => some v | _ => none)
    match vs with
    | [v] => .ok (.attrOne v)
    | _ => .ok (.attrMany vs)
  else
    .error "Mixed methods found."

/-! ### The composed layout pipeline -/

/-- The canonical integer grid: `None` cells replaced by 0 first, then the
requested columns and rows blanked. -/
def canonicalArray (arr : List (List (Option Int))) (emptycols emptyrows : List Nat) :
    List (List Int) :=
  applyEmptyRows emptyrows (applyEmptyCols emptycols (replaceNone arr))

/-- The x-sharing group state of the pipeline (empty when `sharex` is off). -/
def modelGX (array : List (List Int)) (sharex : Bool) (ro co n : Nat) : GroupState :=
  if sharex then xShare (xrangeOf array co n) (yrangeOf array ro n)
  else ⟨[], [], [], []⟩

/-- The y-sharing group state of the pipeline (empty when `sharey` is off). -/
def modelGY (array : List (List Int)) (sharey : Bool) (ro co n : Nat) : GroupState :=
  if sharey then yShare (xrangeOf array co n) (yrangeOf array ro n)
  else ⟨[], [], [], []⟩

/-- The part of `subplots` the claims quantify over: replace `None` cells,
blank the requested columns and rows, validate the numbering, compute the
extents, group shared axes, and draw.  Returns the number of panels, both
group states, and the draw state. -/
def subplotsModel (arr : List (List (Option Int))) (emptycols emptyrows : List Nat)
    (sharex sharey : Bool) (row_offset col_offset : Nat) :
    Except String (Nat × GroupState × GroupState × DrawState) := do
  let array := canonicalArray arr emptycols emptyrows
  let num_axes ← normalizeCheck array
  let gx := modelGX array sharex row_offset col_offset num_axes
  let gy := modelGY array sharey row_offset col_offset num_axes
  let ds ← drawAxes num_axes sharex sharey gx.groups gx.bases gy.groups gy.bases
  return (num_axes, gx, gy, ds)

/-! ### Lemmas about the list helpers -/

theorem nat_min_left {a b : Nat} (h : a ≤ b) : Nat.min a b = a := min_eq_left h

theorem nat_min_right {a b : Nat} (h : b ≤ a) : Nat.min a b = b := min_eq_right h

theorem nat_max_right {a b : Nat} (h : a ≤ b) : Nat.max a b = b := max_eq_right h

theorem nat_max_left {a b : Nat} (h : b ≤ a) : Nat.max a b = a := max_eq_left h

theorem foldl_min_le_init (l : List Nat) (a : Nat) : l.foldl Nat.min a ≤ a := by
  induction l generalizing a with
  | nil => simp
  | cons b l ih =>
    simp only [List.foldl_cons]
    exact le_trans (ih (Nat.min a b)) (Nat.min_le_left a b)

theorem foldl_min_le_mem (l : List Nat) (a x : Nat) (hx : x ∈ l) :
    l.foldl Nat.min a ≤ x := by
  induction l generalizing a with
  | nil => cases hx
  | cons b l ih =>
    simp only [List.foldl_cons]
    rcases List.mem_cons.mp hx with h | h
    · subst h
      exact le_trans (foldl_min_le_init l _) (Nat.min_le_right a x)
    · exact ih _ h

theorem foldl_min_mem (l : List Nat) (a : Nat) :
    l.foldl Nat.min a = a ∨ l.foldl Nat.min a ∈ l := by
  induction l generalizing a with
  | nil => left; rfl
  | cons b l ih =>
    simp only [List.foldl_cons]
    rcases ih (Nat.min a b) with h | h
    · rcases Nat.le_total a b with hab | hab
      · left; rw [h, nat_min_left hab]
      · right; rw [h, nat_min_right hab]; exact List.mem_cons_self b l
    · right; exact List.mem_cons_of_mem b h

theorem listMin_le (l : List Nat) (a : Nat) (ha : a ∈ l) : listMin l ≤ a := by
  cases l with
  | nil => cases ha
  | cons b l =>
    rcases List.mem_cons.mp ha with h | h
    · subst h; exact foldl_min_le_init l a
    · exact foldl_min_le_mem l b a h

theorem listMin_mem (l : List Nat) (h : l ≠ []) : listMin l ∈ l := by
  cases l with
  | nil => exact absurd rfl h
  | cons b l =>
    rcases foldl_min_mem l b with h1 | h1
    · rw [listMin, h1]; exact List.mem_cons_self b l
    · exact List.mem_cons_of_mem b h1

theorem init_le_foldl_max (l : List Nat) (a : Nat) : a ≤ l.foldl Nat.max a := by
  induction l generalizing a with
  | nil => simp
  | cons b l ih =>
    simp only [List.foldl_cons]
    exact le_trans (Nat.le_max_left a b) (ih (Nat.max a b))

theorem mem_le_foldl_max (l : List Nat) (a x : Nat) (hx : x ∈ l) :
    x ≤ l.foldl Nat.max a := by
  induction l generalizing a with
  | nil => cases hx
  | cons b l ih =>
    simp only [List.foldl_cons]
    rcases List.mem_cons.mp hx with h | h
    · subst h
      exact le_trans (Nat.le_max_right a x) (init_le_foldl_max l _)
    · exact ih _ h

theorem foldl_max_mem (l : List Nat) (a : Nat) :
    l.foldl Nat.max a = a ∨ l.foldl Nat.max a ∈ l := by
  induction l generalizing a with
  | nil => left; rfl
  | cons b l ih =>
    simp only [List.foldl_cons]
    rcases ih (Nat.max a b) with h | h
    · rcases Nat.le_total a b with hab | hab
      · right; rw [h, nat_max_right hab]; exact List.mem_cons_self b l
      · left; rw [h, nat_max_left hab]
    · right; exact List.mem_cons_of_mem b h

theorem le_listMax (l : List Nat) (a : Nat) (ha : a ∈ l) : a ≤ listMax l := by
  cases l with
  | nil => cases ha
  | cons b l =>
    rcases List.mem_cons.mp ha with h | h
    · subst h; exact init_le_foldl_max l a
    · exact mem_le_foldl_max l b a h

theorem listMax_mem (l : List Nat) (h : l ≠ []) : listMax l ∈ l := by
  cases l with
  | nil => exact absurd rfl h
  | cons b l =>
    rcases foldl_max_mem l b with h1 | h1
    · rw [listMax, h1]; exact List.mem_cons_self b l
    · exact List.mem_cons_of_mem b h1

/-! ### Lemmas about `argmaxFirst` and `argminFirst` -/

theorem argmaxFirst_mem (key : Nat → Nat) :
    (l : List Nat) → l ≠ [] → argmaxFirst key l ∈ l
  | [a], _ => by simp [argmaxFirst]
  | a :: b :: l, _ => by
    have ih := argmaxFirst_mem key (b :: l) (by simp)
    simp only [argmaxFirst]
    split
    · exact List.mem_cons_of_mem a ih
    · exact List.mem_cons_self a _

theorem le_argmaxFirst (key : Nat → Nat) :
    (l : List Nat) → ∀ x ∈ l, key x ≤ key (argmaxFirst key l)
  | [] => by simp
  | [a] => by simp [argmaxFirst]
  | a :: b :: l => by
    have ih := le_argmaxFirst key (b :: l)
    simp only [argmaxFirst]
    split
    · intro x hx
      rcases List.mem_cons.mp hx with h | h
      · subst h; omega
      · exact ih x h
    · intro x hx
      rcases List.mem_cons.mp hx with h | h
      · subst h; exact le_refl _
      · exact le_trans (ih x h) (by omega)

theorem argmaxFirst_min_of_tie (key : Nat → Nat) :
    (l : List Nat) → List.Pairwise (· ≤ ·) l →
      ∀ x ∈ l, key x = key (argmaxFirst key l) → argmaxFirst key l ≤ x
  | [], _ => by simp
  | [a], _ => by simp [argmaxFirst]
  | a :: b :: l, hs => by
    have ih := argmaxFirst_min_of_tie key (b :: l) (List.Pairwise.of_cons hs)
    simp only [argmaxFirst]
    split
    · intro x hx hk
      rcases List.mem_cons.mp hx with h | h
      · subst h; omega
      · exact ih x h hk
    · intro x hx _
      rcases List.mem_cons.mp hx with h | h
      · subst h; exact le_refl _
      · exact (List.pairwise_cons.mp hs).1 x h

theorem argminFirst_mem (key : Nat → Nat) :
    (l : List Nat) → l ≠ [] → argminFirst key l ∈ l
  | [a], _ => by simp [argminFirst]
  | a :: b :: l, _ => by
    have ih := argminFirst_mem key (b :: l) (by simp)
    simp only [argminFirst]
    split
    · exact List.mem_cons_of_mem a ih
    · exact List.mem_cons_self a _

theorem argminFirst_le (key : Nat → Nat) :
    (l : List Nat) → ∀ x ∈ l, key (argminFirst key l) ≤ key x
  | [] => by simp
  | [a] => by simp [argminFirst]
  | a :: b :: l => by
    have ih := argminFirst_le key (b :: l)
    simp only [argminFirst]
    split
    · intro x hx
      rcases List.mem_cons.mp hx with h | h
      · subst h; omega
      · exact ih x h
    · intro x hx
      rcases List.mem_cons.mp hx with h | h
      · subst h; exact le_refl _
      · exact le_trans (by omega) (ih x h)

theorem argminFirst_min_of_tie (key : Nat → Nat) :
    (l : List Nat) → List.Pairwise (· ≤ ·) l →
      ∀ x ∈ l, key x = key (argminFirst key l) → argminFirst key l ≤ x
  | [], _ => by simp
  | [a], _ => by simp [argminFirst]
  | a :: b :: l, hs => by
    have ih := argminFirst_min_of_tie key (b :: l) (List.Pairwise.of_cons hs)
    simp only [argminFirst]
    split
    · intro x hx hk
      rcases List.mem_cons.mp hx with h | h
      · subst h; omega
      · exact ih x h hk
    · intro x hx _
      rcases List.mem_cons.mp hx with h | h
      · subst h; exact le_refl _
      · exact (List.pairwise_cons.mp hs).1 x h

/-! ### Lemmas about `uniqueSorted` -/

theorem mem_insertSorted (a x : Int) :
    (l : List Int) → (x ∈ insertSorted a l ↔ x = a ∨ x ∈ l)
  | [] => by simp [insertSorted]
  | b :: l => by
    have ih := mem_insertSorted a x l
    simp only [insertSorted]
    split
    · rename_i hab
      subst hab
      simp only [List.mem_cons]
      tauto
    · split
      · simp only [List.mem_cons]
      · simp only [List.mem_cons, ih]; tauto

theorem insertSorted_sorted (a : Int) :
    (l : List Int) → List.Pairwise (· < ·) l →
      List.Pairwise (· < ·) (insertSorted a l)
  | [], _ => by simp [insertSorted]
  | b :: l, hs => by
    have ih := insertSorted_sorted a l (List.Pairwise.of_cons hs)
    simp only [insertSorted]
    split
    · exact hs
    · split
      · rename_i hne hab
        exact List.pairwise_cons.mpr
          ⟨fun x hx => by
            rcases List.mem_cons.mp hx with h | h
            · omega
            · exact lt_trans hab ((List.pairwise_cons.mp hs).1 x h), hs⟩
      · rename_i hne hab
        have hba : b < a := by
          rcases lt_trichotomy a b with h | h | h
          · exact absurd h hab
          · exact absurd h hne
          · exact h
        exact List.pairwise_cons.mpr
          ⟨fun x hx => by
            rcases (mem_insertSorted a x l).mp hx with h | h
            · omega
            · exact (List.pairwise_cons.mp hs).1 x h, ih⟩

theorem mem_foldl_insertSorted (l : List Int) :
    ∀ (acc : List Int) (x : Int),
      x ∈ l.foldl (fun acc a => insertSorted a acc) acc ↔ x ∈ acc ∨ x ∈ l := by
  induction l with
  | nil => simp
  | cons b l ih =>
    intro acc x
    simp only [List.foldl_cons, ih, mem_insertSorted, List.mem_cons]
    tauto

theorem mem_uniqueSorted (l : List Int) (x : Int) : x ∈ uniqueSorted l ↔ x ∈ l := by
  rw [uniqueSorted, mem_foldl_insertSorted]
  simp

theorem uniqueSorted_sorted (l : List Int) :
    List.Pairwise (· < ·) (uniqueSorted l) := by
  rw [uniqueSorted]
  have h : ∀ (acc : List Int), List.Pairwise (· < ·) acc →
      List.Pairwise (· < ·) (l.foldl (fun acc a => insertSorted a acc) acc) := by
    induction l with
    | nil => intro acc h; exact h
    | cons b l ih =>
      intro acc h
      exact ih _ (insertSorted_sorted b acc h)
  exact h [] List.Pairwise.nil

/-- Two strictly increasing lists with the same members are equal. -/
theorem strict_sorted_ext :
    (l1 : List Int) → (l2 : List Int) → List.Pairwise (· < ·) l1 →
      List.Pairwise (· < ·) l2 → (∀ x, x ∈ l1 ↔ x ∈ l2) → l1 = l2
  | [], [], _, _, _ => rfl
  | [], b :: l2, _, _, hm => by
    exact absurd ((hm b).mpr (List.mem_cons_self b l2)) (List.not_mem_nil b)
  | a :: l1, [], _, _, hm => by
    exact absurd ((hm a).mp (List.mem_cons_self a l1)) (List.not_mem_nil a)
  | a :: l1, b :: l2, h1, h2, hm => by
    have hab : a = b := by
      have ha : a ∈ b :: l2 := (hm a).mp (List.mem_cons_self a l1)
      have hb : b ∈ a :: l1 := (hm b).mpr (List.mem_cons_self b l2)
      rcases List.mem_cons.mp ha with h | h
      · exact h
      · rcases List.mem_cons.mp hb with h3 | h3
        · exact h3.symm
        · have := (List.pairwise_cons.mp h2).1 a h
          have := (List.pairwise_cons.mp h1).1 b h3
          omega
    subst hab
    have htail : ∀ x, x ∈ l1 ↔ x ∈ l2 := by
      intro x
      constructor
      · intro hx
        have hax : a < x := (List.pairwise_cons.mp h1).1 x hx
        rcases List.mem_cons.mp ((hm x).mp (List.mem_cons_of_mem a hx)) with h | h
        · omega
        · exact h
      · intro hx
        have hax : a < x := (List.pairwise_cons.mp h2).1 x hx
        rcases List.mem_cons.mp ((hm x).mpr (List.mem_cons_of_mem a hx)) with h | h
        · omega
        · exact h
    rw [strict_sorted_ext l1 l2 (List.Pairwise.of_cons h1) (List.Pairwise.of_cons h2) htail]

/-! ### Lemmas about `matchingAxes` -/

theorem mem_matchingAxes (ext : List (Nat × Nat)) (i j : Nat) :
    j ∈ matchingAxes ext i ↔
      j < ext.length ∧ ext.getD j (0, 0) = ext.getD i (0, 0) := by
  simp [matchingAxes, List.mem_filter]

theorem self_mem_matchingAxes (ext : List (Nat × Nat)) (i : Nat)
    (h : i < ext.length) : i ∈ matchingAxes ext i :=
  (mem_matchingAxes ext i i).mpr ⟨h, rfl⟩

theorem matchingAxes_sorted (ext : List (Nat × Nat)) (i : Nat) :
    List.Pairwise (· ≤ ·) (matchingAxes ext i) :=
  ((List.pairwise_lt_range ext.length).filter _).imp le_of_lt

theorem matchingAxes_lt (ext : List (Nat × Nat)) (i j : Nat)
    (h : j ∈ matchingAxes ext i) : j < ext.length :=
  ((mem_matchingAxes ext i j).mp h).1

theorem matchingAxes_congr (ext : List (Nat × Nat)) (i1 i2 : Nat)
    (h : ext.getD i1 (0, 0) = ext.getD i2 (0, 0)) :
    matchingAxes ext i1 = matchingAxes ext i2 := by
  unfold matchingAxes
  rw [h]

theorem matchingAxes_eq_of_mem (ext : List (Nat × Nat)) (i1 i2 j : Nat)
    (h1 : j ∈ matchingAxes ext i1) (h2 : j ∈ matchingAxes ext i2) :
    matchingAxes ext i1 = matchingAxes ext i2 := by
  have e1 := ((mem_matchingAxes ext i1 j).mp h1).2
  have e2 := ((mem_matchingAxes ext i2 j).mp h2).2
  exact matchingAxes_congr ext i1 i2 (e1 ▸ e2)

/-! ### The grouping-scan invariant -/

/-- Facts preserved by every iteration of the grouping loop: each recorded
group is the full matching set of some id and has more than one member, the
`bases`/`sorteds` lists run parallel to `groups` via `pick`/`srt`, every member
of a recorded group has been booked in `grouped`, and no group is recorded
twice. -/
structure GroupInv (ext : List (Nat × Nat)) (pick : List Nat → Nat)
    (srt : List Nat → List Nat) (s : GroupState) : Prop where
  cls : ∀ g ∈ s.groups, (∃ i, i < ext.length ∧ g = matchingAxes ext i) ∧ 1 < g.length
  lenB : s.bases.length = s.groups.length
  lenS : s.sorteds.length = s.groups.length
  basePick : ∀ p ∈ s.groups.zip s.bases, p.2 = pick p.1
  srtPick : ∀ p ∈ s.groups.zip s.sorteds, p.2 = srt p.1
  sub : ∀ g ∈ s.groups, ∀ j ∈ g, j ∈ s.grouped
  nodupG : List.Pairwise (fun g1 g2 => g1 ≠ g2) s.groups

theorem groupStep_inv (ext : List (Nat × Nat)) (pick : List Nat → Nat)
    (srt : List Nat → List Nat) (s : GroupState) (i : Nat)
    (hi : i < ext.length) (h : GroupInv ext pick srt s) :
    GroupInv ext pick srt (groupStep ext pick srt s i) := by
  unfold groupStep
  by_cases hc : i ∉ s.grouped ∧ 1 < (matchingAxes ext i).length
  · simp only [if_pos hc]
    refine ⟨?_, ?_, ?_, ?_, ?_, ?_, ?_⟩
    · intro g hg
      rcases List.mem_append.mp hg with h1 | h1
      · exact h.cls g h1
      · rw [List.mem_singleton.mp h1]
        exact ⟨⟨i, hi, rfl⟩, hc.2⟩
    · simp [h.lenB]
    · simp [h.lenS]
    · intro p hp
      rw [List.zip_append h.lenB.symm] at hp
      rcases List.mem_append.mp hp with h1 | h1
      · exact h.basePick p h1
      · rcases List.of_mem_zip h1 with ⟨h2, h3⟩
        rw [List.mem_singleton.mp h2, List.mem_singleton.mp h3]
    · intro p hp
      rw [List.zip_append h.lenS.symm] at hp
      rcases List.mem_append.mp hp with h1 | h1
      · exact h.srtPick p h1
      · rcases List.of_mem_zip h1 with ⟨h2, h3⟩
        rw [List.mem_singleton.mp h2, List.mem_singleton.mp h3]
    · intro g hg j hj
      rcases List.mem_append.mp hg with h1 | h1
      · exact List.mem_append_left _ (h.sub g h1 j hj)
      · rw [List.mem_singleton.mp h1] at hj
        exact List.mem_append_right _ hj
    · rw [List.pairwise_append]
      refine ⟨h.nodupG, List.pairwise_singleton _ _, ?_⟩
      intro g hg m hm
      rw [List.mem_singleton.mp hm]
      intro hgm
      exact hc.1 (h.sub g hg i (hgm ▸ self_mem_matchingAxes ext i hi))
  · simp only [if_neg hc]
    refine ⟨h.cls, h.lenB, h.lenS, h.basePick, h.srtPick, ?_, h.nodupG⟩
    intro g hg j hj
    exact List.mem_append_left _ (h.sub g hg j hj)

theorem foldl_groupStep_inv (ext : List (Nat × Nat)) (pick : List Nat → Nat)
    (srt : List Nat → List Nat) :
    ∀ (l : List Nat) (s : GroupState), (∀ i ∈ l, i < ext.length) →
      GroupInv ext pick srt s →
      GroupInv ext pick srt (l.foldl (groupStep ext pick srt) s) := by
  intro l
  induction l with
  | nil => intro s _ h; exact h
  | cons i l ih =>
    intro s hl h
    exact ih _ (fun j hj => hl j (List.mem_cons_of_mem i hj))
      (groupStep_inv ext pick srt s i (hl i (List.mem_cons_self i l)) h)

theorem buildGroups_inv (ext : List (Nat × Nat)) (pick : List Nat → Nat)
    (srt : List Nat → List Nat) :
    GroupInv ext pick srt (buildGroups ext pick srt) := by
  refine foldl_groupStep_inv ext pick srt _ _ (fun i hi => List.mem_range.mp hi) ?_
  exact ⟨by simp, rfl, rfl, by simp, by simp, by simp, List.Pairwise.nil⟩

/-! ### Consequences of the invariant -/

theorem buildGroups_card (ext : List (Nat × Nat)) (pick : List Nat → Nat)
    (srt : List Nat → List Nat) (g : List Nat)
    (hg : g ∈ (buildGroups ext pick srt).groups) : 1 < g.length :=
  ((buildGroups_inv ext pick srt).cls g hg).2

theorem buildGroups_class (ext : List (Nat × Nat)) (pick : List Nat → Nat)
    (srt : List Nat → List Nat) (g : List Nat)
    (hg : g ∈ (buildGroups ext pick srt).groups) :
    ∃ i, i < ext.length ∧ g = matchingAxes ext i :=
  ((buildGroups_inv ext pick srt).cls g hg).1

theorem buildGroups_members_lt (ext : List (Nat × Nat)) (pick : List Nat → Nat)
    (srt : List Nat → List Nat) (g : List Nat)
    (hg : g ∈ (buildGroups ext pick srt).groups) (j : Nat) (hj : j ∈ g) :
    j < ext.length := by
  rcases buildGroups_class ext pick srt g hg with ⟨i, _, rfl⟩
  exact matchingAxes_lt ext i j hj

theorem buildGroups_group_sorted (ext : List (Nat × Nat)) (pick : List Nat → Nat)
    (srt : List Nat → List Nat) (g : List Nat)
    (hg : g ∈ (buildGroups ext pick srt).groups) :
    List.Pairwise (· ≤ ·) g := by
  rcases buildGroups_class ext pick srt g hg with ⟨i, _, rfl⟩
  exact matchingAxes_sorted ext i

theorem buildGroups_extent_eq (ext : List (Nat × Nat)) (pick : List Nat → Nat)
    (srt : List Nat → List Nat) (g : List Nat)
    (hg : g ∈ (buildGroups ext pick srt).groups) (j1 j2 : Nat)
    (h1 : j1 ∈ g) (h2 : j2 ∈ g) :
    ext.getD j1 (0, 0) = ext.getD j2 (0, 0) := by
  rcases buildGroups_class ext pick srt g hg with ⟨i, _, rfl⟩
  rw [((mem_matchingAxes ext i j1).mp h1).2, ((mem_matchingAxes ext i j2).mp h2).2]

theorem buildGroups_maximal (ext : List (Nat × Nat)) (pick : List Nat → Nat)
    (srt : List Nat → List Nat) (g : List Nat)
    (hg : g ∈ (buildGroups ext pick srt).groups) (j1 j2 : Nat)
    (h1 : j1 ∈ g) (h2 : j2 < ext.length)
    (h3 : ext.getD j2 (0, 0) = ext.getD j1 (0, 0)) : j2 ∈ g := by
  rcases buildGroups_class ext pick srt g hg with ⟨i, _, rfl⟩
  exact (mem_matchingAxes ext i j2).mpr
    ⟨h2, h3.trans ((mem_matchingAxes ext i j1).mp h1).2⟩

theorem buildGroups_len (ext : List (Nat × Nat)) (pick : List Nat → Nat)
    (srt : List Nat → List Nat) :
    (buildGroups ext pick srt).bases.length =
      (buildGroups ext pick srt).groups.length :=
  (buildGroups_inv ext pick srt).lenB

theorem buildGroups_base_eq_pick (ext : List (Nat × Nat)) (pick : List Nat → Nat)
    (srt : List Nat → List Nat) (k : Nat)
    (hk : k < (buildGroups ext pick srt).groups.length) :
    (buildGroups ext pick srt).bases.getD k 0 =
      pick ((buildGroups ext pick srt).groups.getD k []) := by
  have hkb : k < (buildGroups ext pick srt).bases.length := by
    rw [buildGroups_len]; exact hk
  have hkz : k < ((buildGroups ext pick srt).groups.zip
      (buildGroups ext pick srt).bases).length := by
    rw [List.length_zip]; omega
  have hmem : ((buildGroups ext pick srt).groups.zip
      (buildGroups ext pick srt).bases)[k] ∈
      (buildGroups ext pick srt).groups.zip (buildGroups ext pick srt).bases :=
    List.getElem_mem hkz
  have hpk := (buildGroups_inv ext pick srt).basePick _ hmem
  rw [List.getElem_zip] at hpk
  rw [List.getD_eq_getElem _ _ hkb, List.getD_eq_getElem _ _ hk]
  simpa using hpk

theorem buildGroups_pairwise_ne (ext : List (Nat × Nat)) (pick : List Nat → Nat)
    (srt : List Nat → List Nat) :
    List.Pairwise (fun g1 g2 => g1 ≠ g2) (buildGroups ext pick srt).groups :=
  (buildGroups_inv ext pick srt).nodupG

/-- The recorded groups are pairwise disjoint: a panel id lies in at most one
recorded group. -/
theorem buildGroups_disjoint (ext : List (Nat × Nat)) (pick : List Nat → Nat)
    (srt : List Nat → List Nat) (k1 k2 j : Nat)
    (hk1 : k1 < (buildGroups ext pick srt).groups.length)
    (hk2 : k2 < (buildGroups ext pick srt).groups.length)
    (hne : k1 ≠ k2)
    (h1 : j ∈ (buildGroups ext pick srt).groups.getD k1 [])
    (h2 : j ∈ (buildGroups ext pick srt).groups.getD k2 []) : False := by
  set G := (buildGroups ext pick srt).groups with hG
  have e1 : G.getD k1 [] = G[k1] := List.getD_eq_getElem G [] hk1
  have e2 : G.getD k2 [] = G[k2] := List.getD_eq_getElem G [] hk2
  have m1 : G[k1] ∈ G := List.getElem_mem hk1
  have m2 : G[k2] ∈ G := List.getElem_mem hk2
  rcases buildGroups_class ext pick srt (G[k1]) m1 with ⟨i1, _, hc1⟩
  rcases buildGroups_class ext pick srt (G[k2]) m2 with ⟨i2, _, hc2⟩
  have hj1 : j ∈ matchingAxes ext i1 := by rw [e1, hc1] at h1; exact h1
  have hj2 : j ∈ matchingAxes ext i2 := by rw [e2, hc2] at h2; exact h2
  have heq : G[k1] = G[k2] := by
    rw [hc1, hc2]
    exact matchingAxes_eq_of_mem ext i1 i2 j hj1 hj2
  have hpw := buildGroups_pairwise_ne ext pick srt
  rw [← hG, List.pairwise_iff_get] at hpw
  rcases Nat.lt_or_ge k1 k2 with h | h
  · exact hpw ⟨k1, hk1⟩ ⟨k2, hk2⟩ h (by simpa using heq)
  · have hlt : k2 < k1 := lt_of_le_of_ne h (Ne.symm hne)
    exact hpw ⟨k2, hk2⟩ ⟨k1, hk1⟩ hlt (by simpa using heq.symm)

/-! ### Lemmas about the draw orchestrator -/

theorem getD_set_self (l : List (Option Nat)) (i : Nat) (v : Option Nat)
    (h : i < l.length) : (l.set i v).getD i none = v := by
  rw [List.getD_eq_getElem?_getD, List.getElem?_set_self (by omega)]; rfl

theorem getD_set_ne (l : List (Option Nat)) (i j : Nat) (v : Option Nat)
    (h : i ≠ j) : (l.set i v).getD j none = l.getD j none := by
  rw [List.getD_eq_getElem?_getD, List.getElem?_set_ne h, ← List.getD_eq_getElem?_getD]

/-- Characterisation of pass 1 folded from a state whose entries are `none` or
the own id: length preserved, the drawn set grows by the processed bases, and
the new trace events are exactly one no-wiring `createBase` per base not
already drawn. -/
theorem pass1_core :
    ∀ (l : List Nat) (s : DrawState),
      (∀ j, s.axs.getD j none = none ∨ s.axs.getD j none = some j) →
      (∀ b ∈ l, b < s.axs.length) →
      (l.foldl pass1Step s).axs.length = s.axs.length ∧
      (∀ j, (l.foldl pass1Step s).axs.getD j none =
        if j ∈ l then some j else s.axs.getD j none) ∧
      ∃ t, (l.foldl pass1Step s).trace = s.trace ++ t ∧
        (∀ e ∈ t, ∃ b ∈ l, e = Event.createBase b ∧ s.axs.getD b none = none) ∧
        (∀ b ∈ l, s.axs.getD b none = none → Event.createBase b ∈ t) ∧
        t.Nodup := by
  intro l
  induction l with
  | nil =>
    intro s _ _
    exact ⟨rfl, by simp, [], by simp, by simp, by simp, List.nodup_nil⟩
  | cons b l ih =>
    intro s hself hlt
    have hb : b < s.axs.length := hlt b (List.mem_cons_self b l)
    by_cases hdrawn : (s.axs.getD b none).isSome
    · have hsb : s.axs.getD b none = some b := by
        rcases hself b with h | h
        · rw [h] at hdrawn; cases hdrawn
        · exact h
      have hstep : pass1Step s b = s := by unfold pass1Step; rw [if_pos hdrawn]
      rw [List.foldl_cons, hstep]
      obtain ⟨h1, h2, t, h3, h4, h5, h6⟩ := ih s hself
        (fun x hx => hlt x (List.mem_cons_of_mem b hx))
      refine ⟨h1, ?_, t, h3, ?_, ?_, h6⟩
      · intro j
        rw [h2 j]
        by_cases hj : j ∈ l
        · rw [if_pos hj, if_pos (List.mem_cons_of_mem b hj)]
        · by_cases hjb : j = b
          · subst hjb
            rw [if_neg hj, hsb, if_pos (List.mem_cons_self j l)]
          · rw [if_neg hj, if_neg (by simp [List.mem_cons, hjb, hj])]
      · intro e he
        obtain ⟨b2, hb2, he2⟩ := h4 e he
        exact ⟨b2, List.mem_cons_of_mem b hb2, he2⟩
      · intro b2 hb2 hnone
        rcases List.mem_cons.mp hb2 with h | h
        · subst h; rw [hsb] at hnone; cases hnone
        · exact h5 b2 h hnone
    · have hsb : s.axs.getD b none = none := by
        cases hx : s.axs.getD b none
        · rfl
        · rw [hx] at hdrawn; simp at hdrawn
      have hstep : pass1Step s b =
          { axs := s.axs.set b (some b), trace := s.trace ++ [.createBase b] } := by
        unfold pass1Step; rw [if_neg hdrawn]
      rw [List.foldl_cons, hstep]
      have hself2 : ∀ j, (s.axs.set b (some b)).getD j none = none ∨
          (s.axs.set b (some b)).getD j none = some j := by
        intro j
        by_cases hjb : b = j
        · subst hjb; right; exact getD_set_self s.axs b (some b) hb
        · rw [getD_set_ne s.axs b j (some b) hjb]; exact hself j
      obtain ⟨h1, h2, t, h3, h4, h5, h6⟩ :=
        ih { axs := s.axs.set b (some b), trace := s.trace ++ [.createBase b] }
          hself2 (fun x hx => by
            simpa [List.length_set] using hlt x (List.mem_cons_of_mem b hx))
      refine ⟨by simpa [List.length_set] using h1, ?_, .createBase b :: t, ?_, ?_, ?_, ?_⟩
      · intro j
        rw [h2 j]
        by_cases hj : j ∈ l
        · rw [if_pos hj, if_pos (List.mem_cons_of_mem b hj)]
        · by_cases hjb : j = b
          · subst hjb
            rw [if_neg hj, getD_set_self s.axs j (some j) hb,
              if_pos (List.mem_cons_self j l)]
          · rw [if_neg hj, getD_set_ne s.axs b j (some b) (fun h => hjb h.symm),
              if_neg (by simp [List.mem_cons, hjb, hj])]
      · simpa using h3
      · intro e he
        rcases List.mem_cons.mp he with h | h
        · exact ⟨b, List.mem_cons_self b l, h, hsb⟩
        · obtain ⟨b2, hb2, he2, he3⟩ := h4 e h
          refine ⟨b2, List.mem_cons_of_mem b hb2, he2, ?_⟩
          by_cases hb2b : b = b2
          · subst hb2b
            rw [getD_set_self s.axs b (some b) hb] at he3
            cases he3
          · rw [getD_set_ne s.axs b b2 (some b) hb2b] at he3
            exact he3
      · intro b2 hb2 hnone
        rcases List.mem_cons.mp hb2 with h | h
        · subst h; exact List.mem_cons_self _ t
        · by_cases hb2b : b = b2
          · subst hb2b; exact List.mem_cons_self _ t
          · refine List.mem_cons_of_mem _ (h5 b2 h ?_)
            rw [getD_set_ne s.axs b b2 (some b) hb2b]
            exact hnone
      · refine List.nodup_cons.mpr ⟨?_, h6⟩
        intro hmem
        obtain ⟨b2, _, he2, he3⟩ := h4 _ hmem
        have hbb2 : b = b2 := by injection he2
        subst hbb2
        rw [getD_set_self s.axs b (some b) hb] at he3
        cases he3

/-- The value pass 2 passes as `sharex`/`sharey` for panel `i` when the bases
in `bases` are all drawn: the base of the unique group containing `i`, if
any. -/
def shareOf (groups : List (List Nat)) (bases : List Nat) (i : Nat) : Option Nat :=
  let igroup := (List.range groups.length).filter (fun k => i ∈ groups.getD k [])
  if igroup.length = 1 then some (bases.getD (igroup.getD 0 0) 0) else none

theorem shareOf_spec (groups : List (List Nat)) (bases : List Nat) (i b : Nat)
    (h : shareOf groups bases i = some b) :
    ∃ k, k < groups.length ∧ i ∈ groups.getD k [] ∧ b = bases.getD k 0 := by
  simp only [shareOf] at h
  split at h
  · rename_i hlen
    set igroup := (List.range groups.length).filter (fun k => i ∈ groups.getD k []) with hig
    have hne : igroup ≠ [] := by
      intro hnil; rw [hnil] at hlen; simp at hlen
    have hk : igroup.getD 0 0 ∈ igroup := by
      cases hig2 : igroup with
      | nil => exact absurd hig2 hne
      | cons a t => simp [hig2]
    have hmf := List.mem_filter.mp (hig ▸ hk)
    rw [← hig] at hmf
    refine ⟨igroup.getD 0 0, List.mem_range.mp hmf.1, by simpa using hmf.2, ?_⟩
    injection h with h2
    exact h2.symm
  · cases h

theorem resolveShare_ok (groups : List (List Nat)) (bases : List Nat)
    (axs : List (Option Nat)) (D P : List Nat) (i : Nat)
    (hrepr : ∀ j, axs.getD j none = if j ∈ D ∨ j ∈ P then some j else none)
    (hb : ∀ k, k < groups.length → bases.getD k 0 ∈ D) :
    resolveShare groups bases axs i = .ok (shareOf groups bases i) := by
  unfold resolveShare shareOf
  set igroup := (List.range groups.length).filter (fun k => i ∈ groups.getD k []) with hig
  by_cases hlen : igroup.length = 1
  · simp only [if_pos hlen]
    have hne : igroup ≠ [] := by
      intro hnil; rw [hnil] at hlen; simp at hlen
    have hk : igroup.getD 0 0 ∈ igroup := by
      cases hig2 : igroup with
      | nil => exact absurd hig2 hne
      | cons a t => simp [hig2]
    have hklt := List.mem_range.mp (List.mem_filter.mp (hig ▸ hk)).1
    have hbD := hb _ hklt
    rw [hrepr (bases.getD (igroup.getD 0 0) 0)]
    have hor : (bases.getD (igroup.getD 0 0) 0 ∈ D ∨
        bases.getD (igroup.getD 0 0) 0 ∈ P) := Or.inl hbD
    rw [if_pos hor]
  · simp only [if_neg hlen]

/-- The pure event list of one pass-2 iteration, expressed over the set `D`
of bases drawn in pass 1: an already-drawn panel gets adopt calls for bases
other than itself, an undrawn panel gets one creation carrying the resolved
base handles. -/
def stepEvents (sharex sharey : Bool) (xg : List (List Nat)) (xgb : List Nat)
    (yg : List (List Nat)) (ygb : List Nat) (D : List Nat) (i : Nat) : List Event :=
  let sx := if sharex then shareOf xg xgb i else none
  let sy := if sharey then shareOf yg ygb i else none
  if i ∈ D then
    (match sx with
     | some b => if i ≠ b then [Event.adoptX i b] else []
     | none => []) ++
    (match sy with
     | some b => if i ≠ b then [Event.adoptY i b] else []
     | none => [])
  else [Event.createDep i sx sy]

theorem pass2Step_reduce (sharex sharey : Bool) (xg : List (List Nat))
    (xgb : List Nat) (yg : List (List Nat)) (ygb : List Nat) (D P : List Nat)
    (s : DrawState) (i : Nat)
    (hrepr : ∀ j, s.axs.getD j none = if j ∈ D ∨ j ∈ P then some j else none)
    (hx : sharex = true → ∀ k, k < xg.length → xgb.getD k 0 ∈ D)
    (hy : sharey = true → ∀ k, k < yg.length → ygb.getD k 0 ∈ D)
    (hiP : i ∉ P) (hin : i < s.axs.length) :
    pass2Step sharex sharey xg xgb yg ygb s i =
      .ok { axs := if i ∈ D then s.axs else s.axs.set i (some i),
            trace := s.trace ++ stepEvents sharex sharey xg xgb yg ygb D i } := by
  have hbindN : ∀ (v : Option Nat) (g : Option Nat → Except String DrawState),
      (Except.ok v).bind g = g v := fun v g => rfl
  have hsx : (if sharex then resolveShare xg xgb s.axs i else Except.ok none) =
      Except.ok (if sharex then shareOf xg xgb i else none) := by
    cases sharex
    · simp
    · simpa using resolveShare_ok xg xgb s.axs D P i hrepr (hx rfl)
  have hsy : (if sharey then resolveShare yg ygb s.axs i else Except.ok none) =
      Except.ok (if sharey then shareOf yg ygb i else none) := by
    cases sharey
    · simp
    · simpa using resolveShare_ok yg ygb s.axs D P i hrepr (hy rfl)
  have hgetD : s.axs.getD i none = if i ∈ D then some i else none := by
    rw [hrepr i]
    by_cases hiD : i ∈ D
    · simp [hiD]
    · simp [hiD, hiP]
  unfold pass2Step
  rw [hsx, hbindN, hsy, hbindN, hgetD]
  by_cases hiD : i ∈ D
  · rw [if_pos hiD]
    unfold stepEvents
    rw [if_pos hiD]
    cases hv1 : (if sharex then shareOf xg xgb i else none) with
    | none =>
      cases hv2 : (if sharey then shareOf yg ygb i else none) with
      | none => simp [if_pos hiD]
      | some b =>
        by_cases hib : i ≠ b
        · simp [hib, if_pos hiD]
        · simp [hib, if_pos hiD]
    | some b =>
      cases hv2 : (if sharey then shareOf yg ygb i else none) with
      | none =>
        by_cases hib : i ≠ b
        · simp [hib, if_pos hiD]
        · simp [hib, if_pos hiD]
      | some b2 =>
        by_cases hib : i ≠ b
        · by_cases hib2 : i ≠ b2
          · simp [hib, hib2, if_pos hiD]
          · simp [hib, hib2, if_pos hiD]
        · by_cases hib2 : i ≠ b2
          · simp [hib, hib2, if_pos hiD]
          · simp [hib, hib2, if_pos hiD]
  · rw [if_neg hiD]
    simp only [stepEvents]
    simp [hiD]

/-- Folding pass 2 over fresh, distinct, in-range panel ids from a state that
represents drawn set `D` plus processed set `P` succeeds and appends exactly
the pure per-panel event lists. -/
theorem pass2_core (sharex sharey : Bool) (xg : List (List Nat)) (xgb : List Nat)
    (yg : List (List Nat)) (ygb : List Nat) (D : List Nat)
    (hx : sharex = true → ∀ k, k < xg.length → xgb.getD k 0 ∈ D)
    (hy : sharey = true → ∀ k, k < yg.length → ygb.getD k 0 ∈ D) :
    ∀ (l : List Nat) (s : DrawState) (P : List Nat),
      (∀ j, s.axs.getD j none = if j ∈ D ∨ j ∈ P then some j else none) →
      (∀ i ∈ l, i ∉ P) → l.Nodup → (∀ i ∈ l, i < s.axs.length) →
      ∃ axs2,
        l.foldlM (pass2Step sharex sharey xg xgb yg ygb) s =
          .ok { axs := axs2,
                trace := s.trace ++
                  l.flatMap (stepEvents sharex sharey xg xgb yg ygb D) } ∧
        axs2.length = s.axs.length ∧
        (∀ j, axs2.getD j none = if j ∈ D ∨ j ∈ P ++ l then some j else none) := by
  intro l
  induction l with
  | nil =>
    intro s P hrepr _ _ _
    refine ⟨s.axs, ?_, rfl, by simpa using hrepr⟩
    simp only [List.foldlM_nil, List.flatMap_nil, List.append_nil]
    rfl
  | cons i l ih =>
    intro s P hrepr hfresh hnodup hlt
    have hiP : i ∉ P := hfresh i (List.mem_cons_self i l)
    have hin : i < s.axs.length := hlt i (List.mem_cons_self i l)
    have hstep := pass2Step_reduce sharex sharey xg xgb yg ygb D P s i hrepr hx hy hiP hin
    have hbindD : ∀ (v : DrawState) (g : DrawState → Except String DrawState),
        (Except.ok v >>= g) = g v := fun v g => rfl
    rw [List.foldlM_cons, hstep, hbindD]
    set A1 : List (Option Nat) := if i ∈ D then s.axs else s.axs.set i (some i) with hA1
    have hlen1 : A1.length = s.axs.length := by
      rw [hA1]; by_cases hiD : i ∈ D
      · rw [if_pos hiD]
      · rw [if_neg hiD, List.length_set]
    have hrepr1 : ∀ j, A1.getD j none =
        if j ∈ D ∨ j ∈ P ++ [i] then some j else none := by
      intro j
      by_cases hji : j = i
      · subst hji
        have hcond : (j ∈ D ∨ j ∈ P ++ [j]) :=
          Or.inr (List.mem_append_right _ (List.mem_singleton_self j))
        rw [if_pos hcond, hA1]
        by_cases hiD : j ∈ D
        · rw [if_pos hiD, hrepr j, if_pos (Or.inl hiD)]
        · rw [if_neg hiD, getD_set_self s.axs j (some j) hin]
      · have hiff : (j ∈ D ∨ j ∈ P ++ [i]) ↔ (j ∈ D ∨ j ∈ P) := by
          simp only [List.mem_append, List.mem_singleton]
          constructor
          · rintro (h | h | h)
            · exact Or.inl h
            · exact Or.inr h
            · exact absurd h hji
          · rintro (h | h)
            · exact Or.inl h
            · exact Or.inr (Or.inl h)
        have hAj : A1.getD j none = s.axs.getD j none := by
          rw [hA1]
          by_cases hiD : i ∈ D
          · rw [if_pos hiD]
          · rw [if_neg hiD, getD_set_ne s.axs i j (some i) (fun h => hji h.symm)]
        rw [hAj, hrepr j]
        by_cases hj : j ∈ D ∨ j ∈ P
        · rw [if_pos hj, if_pos (hiff.mpr hj)]
        · rw [if_neg hj, if_neg (fun h => hj (hiff.mp h))]
    obtain ⟨axs2, hfold, hlen2, hrepr2⟩ := ih
      { axs := A1, trace := s.trace ++ stepEvents sharex sharey xg xgb yg ygb D i }
      (P ++ [i]) hrepr1
      (fun j hj => by
        intro hcon
        rcases List.mem_append.mp hcon with h | h
        · exact hfresh j (List.mem_cons_of_mem i hj) h
        · rw [List.mem_singleton.mp h] at hj
          exact (List.nodup_cons.mp hnodup).1 hj)
      (List.nodup_cons.mp hnodup).2
      (fun j hj => by
        rw [hlen1]
        exact hlt j (List.mem_cons_of_mem i hj))
    refine ⟨axs2, ?_, by rw [hlen2, hlen1], ?_⟩
    · rw [hfold]
      simp only [List.flatMap_cons, List.append_assoc]
    · intro j
      rw [hrepr2 j]
      have hiff : (j ∈ D ∨ j ∈ (P ++ [i]) ++ l) ↔ (j ∈ D ∨ j ∈ P ++ i :: l) := by
        simp only [List.mem_append, List.mem_singleton, List.mem_cons]
        tauto
      by_cases hj : j ∈ D ∨ j ∈ (P ++ [i]) ++ l
      · rw [if_pos hj, if_pos (hiff.mp hj)]
      · rw [if_neg hj, if_neg (fun h => hj (hiff.mpr h))]

theorem getD_replicate_none (n j : Nat) :
    (List.replicate n (none : Option Nat)).getD j none = none := by
  rw [List.getD_eq_getElem?_getD, List.getElem?_replicate]
  split <;> rfl

/-- Full characterisation of `drawAxes`: it succeeds, its trace is a pass-1
prefix of distinct no-wiring base creations covering exactly the base list,
followed by the pure pass-2 events of every panel in id order. -/
theorem drawAxes_spec (n : Nat) (sharex sharey : Bool) (xg : List (List Nat))
    (xgb : List Nat) (yg : List (List Nat)) (ygb : List Nat)
    (hx : sharex = true → ∀ k, k < xg.length →
      xgb.getD k 0 ∈ allBases sharex sharey xgb ygb)
    (hy : sharey = true → ∀ k, k < yg.length →
      ygb.getD k 0 ∈ allBases sharex sharey xgb ygb)
    (hblt : ∀ b ∈ allBases sharex sharey xgb ygb, b < n) :
    ∃ axs2 t1,
      drawAxes n sharex sharey xg xgb yg ygb =
        .ok { axs := axs2,
              trace := t1 ++ (List.range n).flatMap
                (stepEvents sharex sharey xg xgb yg ygb
                  (allBases sharex sharey xgb ygb)) } ∧
      (∀ e ∈ t1, ∃ b ∈ allBases sharex sharey xgb ygb, e = Event.createBase b) ∧
      (∀ b ∈ allBases sharex sharey xgb ygb, Event.createBase b ∈ t1) ∧
      t1.Nodup ∧ axs2.length = n := by
  set AB := allBases sharex sharey xgb ygb with hAB
  have hself : ∀ j, (⟨List.replicate n none, []⟩ : DrawState).axs.getD j none = none ∨
      (⟨List.replicate n none, []⟩ : DrawState).axs.getD j none = some j := by
    intro j
    left
    exact getD_replicate_none n j
  obtain ⟨hlen1, hget1, t1, htr1, ht1a, ht1b, ht1c⟩ :=
    pass1_core AB ⟨List.replicate n none, []⟩
      (fun j => hself j)
      (fun b hb => by
        simpa [List.length_replicate] using hblt b hb)
  have hrepr1 : ∀ j, (AB.foldl pass1Step ⟨List.replicate n none, []⟩).axs.getD j none =
      if j ∈ AB ∨ j ∈ ([] : List Nat) then some j else none := by
    intro j
    rw [hget1 j, getD_replicate_none n j]
    simp
  obtain ⟨axs2, hfold, hlen2, _⟩ :=
    pass2_core sharex sharey xg xgb yg ygb AB hx hy (List.range n)
      (AB.foldl pass1Step ⟨List.replicate n none, []⟩) [] hrepr1
      (fun i _ => List.not_mem_nil i) (List.nodup_range n)
      (fun i hi => by
        rw [hlen1, List.length_replicate]
        exact List.mem_range.mp hi)
  refine ⟨axs2, t1, ?_, ?_, ?_, ht1c, by rw [hlen2, hlen1, List.length_replicate]⟩
  · rw [drawAxes]
    show (List.range n).foldlM (pass2Step sharex sharey xg xgb yg ygb)
        (AB.foldl pass1Step ⟨List.replicate n none, []⟩) = _
    rw [hfold, htr1]
    simp
  · intro e he
    obtain ⟨b, hb, heq, _⟩ := ht1a e he
    exact ⟨b, hb, heq⟩
  · intro b hb
    exact ht1b b hb (getD_replicate_none n b)

/-- The panel id and share sources of a pass-2 creation event. -/
def depOf : Event → Option (Nat × Option Nat × Option Nat)
  | .createDep i sx sy => some (i, sx, sy)
  | _ => none

theorem stepEvents_dep (sharex sharey : Bool) (xg : List (List Nat))
    (xgb : List Nat) (yg : List (List Nat)) (ygb : List Nat) (D : List Nat)
    (i : Nat) :
    (stepEvents sharex sharey xg xgb yg ygb D i).filterMap depOf =
      if i ∈ D then []
      else [(i, (if sharex then shareOf xg xgb i else none),
                (if sharey then shareOf yg ygb i else none))] := by
  simp only [stepEvents]
  by_cases hiD : i ∈ D
  · rw [if_pos hiD, if_pos hiD]
    rw [List.filterMap_append]
    cases hv1 : (if sharex then shareOf xg xgb i else none) with
    | none =>
      cases hv2 : (if sharey then shareOf yg ygb i else none) with
      | none => simp [depOf]
      | some b =>
        by_cases hib : i ≠ b
        · simp [hib, depOf]
        · simp [hib, depOf]
    | some b =>
      cases hv2 : (if sharey then shareOf yg ygb i else none) with
      | none =>
        by_cases hib : i ≠ b
        · simp [hib, depOf]
        · simp [hib, depOf]
      | some b2 =>
        by_cases hib : i ≠ b
        · by_cases hib2 : i ≠ b2
          · simp [hib, hib2, depOf]
          · simp [hib, hib2, depOf]
        · by_cases hib2 : i ≠ b2
          · simp [hib, hib2, depOf]
          · simp [hib, hib2, depOf]
  · rw [if_neg hiD, if_neg hiD]
    simp [depOf]

theorem flatMap_stepEvents_dep (sharex sharey : Bool) (xg : List (List Nat))
    (xgb : List Nat) (yg : List (List Nat)) (ygb : List Nat) (D : List Nat)
    (l : List Nat) :
    (l.flatMap (stepEvents sharex sharey xg xgb yg ygb D)).filterMap depOf =
      (l.filter (fun i => i ∉ D)).map
        (fun i => (i, (if sharex then shareOf xg xgb i else none),
                      (if sharey then shareOf yg ygb i else none))) := by
  induction l with
  | nil => simp
  | cons i l ih =>
    rw [List.flatMap_cons, List.filterMap_append, ih,
      stepEvents_dep sharex sharey xg xgb yg ygb D i]
    by_cases hiD : i ∈ D
    · rw [if_pos hiD]
      rw [List.filter_cons_of_neg (by simpa using hiD)]
      simp
    · rw [if_neg hiD]
      rw [List.filter_cons_of_pos (by simpa using hiD)]
      simp

theorem mem_stepEvents_adoptX (sharex sharey : Bool) (xg : List (List Nat))
    (xgb : List Nat) (yg : List (List Nat)) (ygb : List Nat) (D : List Nat)
    (i a b : Nat) (h : Event.adoptX a b ∈ stepEvents sharex sharey xg xgb yg ygb D i) :
    a = i ∧ i ∈ D ∧ i ≠ b ∧ (if sharex then shareOf xg xgb i else none) = some b := by
  simp only [stepEvents] at h
  by_cases hiD : i ∈ D
  · rw [if_pos hiD] at h
    rcases List.mem_append.mp h with h1 | h1
    · cases hv1 : (if sharex then shareOf xg xgb i else none) with
      | none => simp only [hv1] at h1; cases h1
      | some b2 =>
        simp only [hv1] at h1
        by_cases hib : i ≠ b2
        · rw [if_pos hib] at h1
          have h2 := List.mem_singleton.mp h1
          injection h2 with h3 h4
          exact ⟨h3, hiD, fun hc => hib (h4 ▸ hc), by rw [h4]⟩
        · rw [if_neg hib] at h1; cases h1
    · cases hv2 : (if sharey then shareOf yg ygb i else none) with
      | none => simp only [hv2] at h1; cases h1
      | some b2 =>
        simp only [hv2] at h1
        by_cases hib : i ≠ b2
        · rw [if_pos hib] at h1
          rcases List.mem_singleton.mp h1 with h2
          cases h2
        · rw [if_neg hib] at h1; cases h1
  · rw [if_neg hiD] at h
    rcases List.mem_singleton.mp h with h2
    cases h2

theorem mem_stepEvents_adoptY (sharex sharey : Bool) (xg : List (List Nat))
    (xgb : List Nat) (yg : List (List Nat)) (ygb : List Nat) (D : List Nat)
    (i a b : Nat) (h : Event.adoptY a b ∈ stepEvents sharex sharey xg xgb yg ygb D i) :
    a = i ∧ i ∈ D ∧ i ≠ b ∧ (if sharey then shareOf yg ygb i else none) = some b := by
  simp only [stepEvents] at h
  by_cases hiD : i ∈ D
  · rw [if_pos hiD] at h
    rcases List.mem_append.mp h with h1 | h1
    · cases hv1 : (if sharex then shareOf xg xgb i else none) with
      | none => simp only [hv1] at h1; cases h1
      | some b2 =>
        simp only [hv1] at h1
        by_cases hib : i ≠ b2
        · rw [if_pos hib] at h1
          rcases List.mem_singleton.mp h1 with h2
          cases h2
        · rw [if_neg hib] at h1; cases h1
    · cases hv2 : (if sharey then shareOf yg ygb i else none) with
      | none => simp only [hv2] at h1; cases h1
      | some b2 =>
        simp only [hv2] at h1
        by_cases hib : i ≠ b2
        · rw [if_pos hib] at h1
          have h2 := List.mem_singleton.mp h1
          injection h2 with h3 h4
          exact ⟨h3, hiD, fun hc => hib (h4 ▸ hc), by rw [h4]⟩
        · rw [if_neg hib] at h1; cases h1
  · rw [if_neg hiD] at h
    rcases List.mem_singleton.mp h with h2
    cases h2

theorem mem_stepEvents_createDep (sharex sharey : Bool) (xg : List (List Nat))
    (xgb : List Nat) (yg : List (List Nat)) (ygb : List Nat) (D : List Nat)
    (i a : Nat) (sx sy : Option Nat)
    (h : Event.createDep a sx sy ∈ stepEvents sharex sharey xg xgb yg ygb D i) :
    a = i ∧ i ∉ D ∧ sx = (if sharex then shareOf xg xgb i else none) ∧
      sy = (if sharey then shareOf yg ygb i else none) := by
  simp only [stepEvents] at h
  by_cases hiD : i ∈ D
  · rw [if_pos hiD] at h
    exfalso
    rcases List.mem_append.mp h with h1 | h1
    · cases hv1 : (if sharex then shareOf xg xgb i else none) with
      | none => simp only [hv1] at h1; cases h1
      | some b2 =>
        simp only [hv1] at h1
        by_cases hib : i ≠ b2
        · rw [if_pos hib] at h1
          rcases List.mem_singleton.mp h1 with h2
          cases h2
        · rw [if_neg hib] at h1; cases h1
    · cases hv2 : (if sharey then shareOf yg ygb i else none) with
      | none => simp only [hv2] at h1; cases h1
      | some b2 =>
        simp only [hv2] at h1
        by_cases hib : i ≠ b2
        · rw [if_pos hib] at h1
          rcases List.mem_singleton.mp h1 with h2
          cases h2
        · rw [if_neg hib] at h1; cases h1
  · rw [if_neg hiD] at h
    have h2 := List.mem_singleton.mp h
    injection h2 with h3 h4 h5
    exact ⟨h3, hiD, h4, h5⟩

/-! ### Glue: grouper output facts in the shape the orchestrator needs -/

theorem xrangeOf_length (g : List (List Int)) (co n : Nat) :
    (xrangeOf g co n).length = n := by
  rw [xrangeOf, List.length_map, List.length_range]

theorem yrangeOf_length (g : List (List Int)) (ro n : Nat) :
    (yrangeOf g ro n).length = n := by
  rw [yrangeOf, List.length_map, List.length_range]

theorem xShare_len (xr yr : List (Nat × Nat)) :
    (xShare xr yr).bases.length = (xShare xr yr).groups.length :=
  buildGroups_len xr _ _

theorem yShare_len (xr yr : List (Nat × Nat)) :
    (yShare xr yr).bases.length = (yShare xr yr).groups.length :=
  buildGroups_len yr _ _

theorem buildGroups_base_in_group (ext : List (Nat × Nat)) (pick : List Nat → Nat)
    (srt : List Nat → List Nat) (hpick : ∀ g : List Nat, g ≠ [] → pick g ∈ g)
    (k : Nat) (hk : k < (buildGroups ext pick srt).groups.length) :
    (buildGroups ext pick srt).bases.getD k 0 ∈
      (buildGroups ext pick srt).groups.getD k [] := by
  rw [buildGroups_base_eq_pick ext pick srt k hk]
  have hmem : (buildGroups ext pick srt).groups.getD k [] ∈
      (buildGroups ext pick srt).groups := by
    rw [List.getD_eq_getElem _ _ hk]
    exact List.getElem_mem hk
  have hcard := buildGroups_card ext pick srt _ hmem
  exact hpick _ (by
    intro hnil
    rw [hnil] at hcard
    simp at hcard)

theorem buildGroups_bases_lt (ext : List (Nat × Nat)) (pick : List Nat → Nat)
    (srt : List Nat → List Nat) (hpick : ∀ g : List Nat, g ≠ [] → pick g ∈ g) :
    ∀ b ∈ (buildGroups ext pick srt).bases, b < ext.length := by
  intro b hb
  obtain ⟨⟨k, hklt⟩, heq⟩ := List.mem_iff_get.mp hb
  have hk2 : k < (buildGroups ext pick srt).groups.length := by
    rw [← buildGroups_len ext pick srt]
    exact hklt
  have hbk : b = (buildGroups ext pick srt).bases.getD k 0 := by
    rw [List.getD_eq_getElem _ _ hklt, ← heq]
    simp
  rw [hbk]
  have hing := buildGroups_base_in_group ext pick srt hpick k hk2
  have hgmem : (buildGroups ext pick srt).groups.getD k [] ∈
      (buildGroups ext pick srt).groups := by
    rw [List.getD_eq_getElem _ _ hk2]
    exact List.getElem_mem hk2
  exact buildGroups_members_lt ext pick srt _ hgmem _ hing

theorem xShare_base_in_group (xr yr : List (Nat × Nat)) (k : Nat)
    (hk : k < (xShare xr yr).groups.length) :
    (xShare xr yr).bases.getD k 0 ∈ (xShare xr yr).groups.getD k [] :=
  buildGroups_base_in_group xr _ _
    (fun g hg => argmaxFirst_mem (fun j => (yr.getD j (0, 0)).2) g hg) k hk

theorem yShare_base_in_group (xr yr : List (Nat × Nat)) (k : Nat)
    (hk : k < (yShare xr yr).groups.length) :
    (yShare xr yr).bases.getD k 0 ∈ (yShare xr yr).groups.getD k [] :=
  buildGroups_base_in_group yr _ _
    (fun g hg => argminFirst_mem (fun j => (xr.getD j (0, 0)).1) g hg) k hk

theorem xShare_bases_lt (xr yr : List (Nat × Nat)) :
    ∀ b ∈ (xShare xr yr).bases, b < xr.length :=
  buildGroups_bases_lt xr _ _
    (fun g hg => argmaxFirst_mem (fun j => (yr.getD j (0, 0)).2) g hg)

theorem yShare_bases_lt (xr yr : List (Nat × Nat)) :
    ∀ b ∈ (yShare xr yr).bases, b < yr.length :=
  buildGroups_bases_lt yr _ _
    (fun g hg => argminFirst_mem (fun j => (xr.getD j (0, 0)).1) g hg)

theorem modelGX_bases_lt (array : List (List Int)) (sharex : Bool) (ro co n : Nat) :
    ∀ b ∈ (modelGX array sharex ro co n).bases, b < n := by
  intro b hb
  unfold modelGX at hb
  by_cases hs : sharex
  · rw [if_pos hs] at hb
    have := xShare_bases_lt (xrangeOf array co n) (yrangeOf array ro n) b hb
    rwa [xrangeOf_length] at this
  · rw [if_neg hs] at hb
    cases hb

theorem modelGY_bases_lt (array : List (List Int)) (sharey : Bool) (ro co n : Nat) :
    ∀ b ∈ (modelGY array sharey ro co n).bases, b < n := by
  intro b hb
  unfold modelGY at hb
  by_cases hs : sharey
  · rw [if_pos hs] at hb
    have := yShare_bases_lt (xrangeOf array co n) (yrangeOf array ro n) b hb
    rwa [yrangeOf_length] at this
  · rw [if_neg hs] at hb
    cases hb

theorem modelGX_base_mem_bases (array : List (List Int)) (sharex : Bool)
    (ro co n : Nat) (k : Nat) (hk : k < (modelGX array sharex ro co n).groups.length) :
    (modelGX array sharex ro co n).bases.getD k 0 ∈
      (modelGX array sharex ro co n).bases := by
  unfold modelGX at hk ⊢
  by_cases hs : sharex
  · rw [if_pos hs] at hk ⊢
    have hlen : k < (xShare (xrangeOf array co n) (yrangeOf array ro n)).bases.length := by
      rw [xShare_len]
      exact hk
    rw [List.getD_eq_getElem _ _ hlen]
    exact List.getElem_mem hlen
  · rw [if_neg hs] at hk
    simp at hk

theorem modelGY_base_mem_bases (array : List (List Int)) (sharey : Bool)
    (ro co n : Nat) (k : Nat) (hk : k < (modelGY array sharey ro co n).groups.length) :
    (modelGY array sharey ro co n).bases.getD k 0 ∈
      (modelGY array sharey ro co n).bases := by
  unfold modelGY at hk ⊢
  by_cases hs : sharey
  · rw [if_pos hs] at hk ⊢
    have hlen : k < (yShare (xrangeOf array co n) (yrangeOf array ro n)).bases.length := by
      rw [yShare_len]
      exact hk
    rw [List.getD_eq_getElem _ _ hlen]
    exact List.getElem_mem hlen
  · rw [if_neg hs] at hk
    simp at hk

/-- C2: with sharing enabled, every designated base panel is drawn in a first
pass with no shared-axis wiring (`t1`: one distinct `createBase` per base);
then pass 2 visits all panels in id order: the remaining panels are created
with their group's base handle passed as share source (the created-panel list
equals the ascending non-base ids), every share source handed out is a base
drawn in pass 1 and is the base of the unique group containing the panel (so
a share is never requested against a not-yet-drawn handle and the
`OrderingViolation` branch is unreachable: the run returns `.ok`), and a panel
already drawn as a base that must share the other axis with a different panel
receives an adopt event on its existing handle and is never re-created. -/
theorem claim_C2_two_pass_draw_orchestration (arr : List (List (Option Int)))
    (emptycols emptyrows : List Nat) (sharex sharey : Bool) (ro co n : Nat)
    (h : normalizeCheck (canonicalArray arr emptycols emptyrows) = .ok n) :
    ∃ axs2 t1 t2,
      subplotsModel arr emptycols emptyrows sharex sharey ro co =
        .ok (n, (modelGX (canonicalArray arr emptycols emptyrows) sharex ro co n), (modelGY (canonicalArray arr emptycols emptyrows) sharey ro co n), ⟨axs2, t1 ++ t2⟩) ∧
      t2 = (List.range n).flatMap
        (stepEvents sharex sharey (modelGX (canonicalArray arr emptycols emptyrows) sharex ro co n).groups (modelGX (canonicalArray arr emptycols emptyrows) sharex ro co n).bases (modelGY (canonicalArray arr emptycols emptyrows) sharey ro co n).groups (modelGY (canonicalArray arr emptycols emptyrows) sharey ro co n).bases
          (allBases sharex sharey (modelGX (canonicalArray arr emptycols emptyrows) sharex ro co n).bases (modelGY (canonicalArray arr emptycols emptyrows) sharey ro co n).bases)) ∧
      (∀ e ∈ t1, ∃ b ∈ (allBases sharex sharey (modelGX (canonicalArray arr emptycols emptyrows) sharex ro co n).bases (modelGY (canonicalArray arr emptycols emptyrows) sharey ro co n).bases), e = Event.createBase b) ∧
      (∀ b ∈ (allBases sharex sharey (modelGX (canonicalArray arr emptycols emptyrows) sharex ro co n).bases (modelGY (canonicalArray arr emptycols emptyrows) sharey ro co n).bases), Event.createBase b ∈ t1) ∧
      t1.Nodup ∧
      t2.filterMap depOf =
        ((List.range n).filter (fun i => i ∉ (allBases sharex sharey (modelGX (canonicalArray arr emptycols emptyrows) sharex ro co n).bases (modelGY (canonicalArray arr emptycols emptyrows) sharey ro co n).bases))).map
          (fun i => (i, (if sharex then shareOf (modelGX (canonicalArray arr emptycols emptyrows) sharex ro co n).groups (modelGX (canonicalArray arr emptycols emptyrows) sharex ro co n).bases i else none), (if sharey then shareOf (modelGY (canonicalArray arr emptycols emptyrows) sharey ro co n).groups (modelGY (canonicalArray arr emptycols emptyrows) sharey ro co n).bases i else none))) ∧
      List.Pairwise (· < ·) ((List.range n).filter (fun i => i ∉ (allBases sharex sharey (modelGX (canonicalArray arr emptycols emptyrows) sharex ro co n).bases (modelGY (canonicalArray arr emptycols emptyrows) sharey ro co n).bases))) ∧
      (∀ i b, (if sharex then shareOf (modelGX (canonicalArray arr emptycols emptyrows) sharex ro co n).groups (modelGX (canonicalArray arr emptycols emptyrows) sharex ro co n).bases i else none) = some b →
        b ∈ (allBases sharex sharey (modelGX (canonicalArray arr emptycols emptyrows) sharex ro co n).bases (modelGY (canonicalArray arr emptycols emptyrows) sharey ro co n).bases) ∧ ∃ k, k < (modelGX (canonicalArray arr emptycols emptyrows) sharex ro co n).groups.length ∧ i ∈ (modelGX (canonicalArray arr emptycols emptyrows) sharex ro co n).groups.getD k [] ∧
          b = (modelGX (canonicalArray arr emptycols emptyrows) sharex ro co n).bases.getD k 0) ∧
      (∀ i b, (if sharey then shareOf (modelGY (canonicalArray arr emptycols emptyrows) sharey ro co n).groups (modelGY (canonicalArray arr emptycols emptyrows) sharey ro co n).bases i else none) = some b →
        b ∈ (allBases sharex sharey (modelGX (canonicalArray arr emptycols emptyrows) sharex ro co n).bases (modelGY (canonicalArray arr emptycols emptyrows) sharey ro co n).bases) ∧ ∃ k, k < (modelGY (canonicalArray arr emptycols emptyrows) sharey ro co n).groups.length ∧ i ∈ (modelGY (canonicalArray arr emptycols emptyrows) sharey ro co n).groups.getD k [] ∧
          b = (modelGY (canonicalArray arr emptycols emptyrows) sharey ro co n).bases.getD k 0) ∧
      (∀ i b, Event.adoptX i b ∈ t2 → i ∈ (allBases sharex sharey (modelGX (canonicalArray arr emptycols emptyrows) sharex ro co n).bases (modelGY (canonicalArray arr emptycols emptyrows) sharey ro co n).bases) ∧ i ≠ b ∧ (if sharex then shareOf (modelGX (canonicalArray arr emptycols emptyrows) sharex ro co n).groups (modelGX (canonicalArray arr emptycols emptyrows) sharex ro co n).bases i else none) = some b) ∧
      (∀ i b, Event.adoptY i b ∈ t2 → i ∈ (allBases sharex sharey (modelGX (canonicalArray arr emptycols emptyrows) sharex ro co n).bases (modelGY (canonicalArray arr emptycols emptyrows) sharey ro co n).bases) ∧ i ≠ b ∧ (if sharey then shareOf (modelGY (canonicalArray arr emptycols emptyrows) sharey ro co n).groups (modelGY (canonicalArray arr emptycols emptyrows) sharey ro co n).bases i else none) = some b) ∧
      (∀ i sx2 sy2, Event.createDep i sx2 sy2 ∈ t2 →
        i ∉ (allBases sharex sharey (modelGX (canonicalArray arr emptycols emptyrows) sharex ro co n).bases (modelGY (canonicalArray arr emptycols emptyrows) sharey ro co n).bases) ∧ sx2 = (if sharex then shareOf (modelGX (canonicalArray arr emptycols emptyrows) sharex ro co n).groups (modelGX (canonicalArray arr emptycols emptyrows) sharex ro co n).bases i else none) ∧ sy2 = (if sharey then shareOf (modelGY (canonicalArray arr emptycols emptyrows) sharey ro co n).groups (modelGY (canonicalArray arr emptycols emptyrows) sharey ro co n).bases i else none)) := by
  have hx : sharex = true → ∀ k, k < (modelGX (canonicalArray arr emptycols emptyrows) sharex ro co n).groups.length →
      (modelGX (canonicalArray arr emptycols emptyrows) sharex ro co n).bases.getD k 0 ∈ (allBases sharex sharey (modelGX (canonicalArray arr emptycols emptyrows) sharex ro co n).bases (modelGY (canonicalArray arr emptycols emptyrows) sharey ro co n).bases) := by
    intro hs k hk
    rw [allBases, if_pos hs]
    exact List.mem_append_left _ (modelGX_base_mem_bases (canonicalArray arr emptycols emptyrows) sharex ro co n k hk)
  have hy : sharey = true → ∀ k, k < (modelGY (canonicalArray arr emptycols emptyrows) sharey ro co n).groups.length →
      (modelGY (canonicalArray arr emptycols emptyrows) sharey ro co n).bases.getD k 0 ∈ (allBases sharex sharey (modelGX (canonicalArray arr emptycols emptyrows) sharex ro co n).bases (modelGY (canonicalArray arr emptycols emptyrows) sharey ro co n).bases) := by
    intro hs k hk
    rw [allBases, if_pos hs]
    exact List.mem_append_right _ (modelGY_base_mem_bases (canonicalArray arr emptycols emptyrows) sharey ro co n k hk)
  have hblt : ∀ b ∈ (allBases sharex sharey (modelGX (canonicalArray arr emptycols emptyrows) sharex ro co n).bases (modelGY (canonicalArray arr emptycols emptyrows) sharey ro co n).bases), b < n := by
    intro b hb
    rw [allBases] at hb
    rcases List.mem_append.mp hb with h1 | h1
    · by_cases hs : sharex
      · rw [if_pos hs] at h1
        exact modelGX_bases_lt (canonicalArray arr emptycols emptyrows) sharex ro co n b h1
      · rw [if_neg hs] at h1
        cases h1
    · by_cases hs : sharey
      · rw [if_pos hs] at h1
        exact modelGY_bases_lt (canonicalArray arr emptycols emptyrows) sharey ro co n b h1
      · rw [if_neg hs] at h1
        cases h1
  obtain ⟨axs2, t1, hdraw, p1, p2, p3, hlen⟩ :=
    drawAxes_spec n sharex sharey (modelGX (canonicalArray arr emptycols emptyrows) sharex ro co n).groups (modelGX (canonicalArray arr emptycols emptyrows) sharex ro co n).bases (modelGY (canonicalArray arr emptycols emptyrows) sharey ro co n).groups (modelGY (canonicalArray arr emptycols emptyrows) sharey ro co n).bases
      hx hy hblt
  have hbn : ∀ (v : Nat)
      (g : Nat → Except String (Nat × GroupState × GroupState × DrawState)),
      (Except.ok v >>= g) = g v := fun _ _ => rfl
  have hbd : ∀ (v : DrawState)
      (g : DrawState → Except String (Nat × GroupState × GroupState × DrawState)),
      (Except.ok v >>= g) = g v := fun _ _ => rfl
  refine ⟨axs2, t1, _, ?_, rfl, p1, p2, p3,
    flatMap_stepEvents_dep sharex sharey (modelGX (canonicalArray arr emptycols emptyrows) sharex ro co n).groups (modelGX (canonicalArray arr emptycols emptyrows) sharex ro co n).bases (modelGY (canonicalArray arr emptycols emptyrows) sharey ro co n).groups
      (modelGY (canonicalArray arr emptycols emptyrows) sharey ro co n).bases (allBases sharex sharey (modelGX (canonicalArray arr emptycols emptyrows) sharex ro co n).bases (modelGY (canonicalArray arr emptycols emptyrows) sharey ro co n).bases) (List.range n), ?_, ?_, ?_, ?_, ?_, ?_⟩
  · simp only [subplotsModel]
    rw [h, hbn, hdraw, hbd]
    rfl
  · exact List.Pairwise.sublist (List.filter_sublist _) (List.pairwise_lt_range n)
  · intro i b hsome
    by_cases hs : sharex
    · rw [if_pos hs] at hsome
      obtain ⟨k, hk, hik, hbk⟩ := shareOf_spec (modelGX (canonicalArray arr emptycols emptyrows) sharex ro co n).groups (modelGX (canonicalArray arr emptycols emptyrows) sharex ro co n).bases i b hsome
      refine ⟨?_, k, hk, hik, hbk⟩
      rw [hbk]
      exact hx hs k hk
    · rw [if_neg hs] at hsome
      cases hsome
  · intro i b hsome
    by_cases hs : sharey
    · rw [if_pos hs] at hsome
      obtain ⟨k, hk, hik, hbk⟩ := shareOf_spec (modelGY (canonicalArray arr emptycols emptyrows) sharey ro co n).groups (modelGY (canonicalArray arr emptycols emptyrows) sharey ro co n).bases i b hsome
      refine ⟨?_, k, hk, hik, hbk⟩
      rw [hbk]
      exact hy hs k hk
    · rw [if_neg hs] at hsome
      cases hsome
  · intro i b hmem
    obtain ⟨i0, hi0, hstep⟩ := List.mem_flatMap.mp hmem
    obtain ⟨ha, hD, hneq, heq⟩ :=
      mem_stepEvents_adoptX sharex sharey (modelGX (canonicalArray arr emptycols emptyrows) sharex ro co n).groups (modelGX (canonicalArray arr emptycols emptyrows) sharex ro co n).bases (modelGY (canonicalArray arr emptycols emptyrows) sharey ro co n).groups
        (modelGY (canonicalArray arr emptycols emptyrows) sharey ro co n).bases (allBases sharex sharey (modelGX (canonicalArray arr emptycols emptyrows) sharex ro co n).bases (modelGY (canonicalArray arr emptycols emptyrows) sharey ro co n).bases) i0 i b hstep
    subst ha
    exact ⟨hD, hneq, heq⟩
  · intro i b hmem
    obtain ⟨i0, hi0, hstep⟩ := List.mem_flatMap.mp hmem
    obtain ⟨ha, hD, hneq, heq⟩ :=
      mem_stepEvents_adoptY sharex sharey (modelGX (canonicalArray arr emptycols emptyrows) sharex ro co n).groups (modelGX (canonicalArray arr emptycols emptyrows) sharex ro co n).bases (modelGY (canonicalArray arr emptycols emptyrows) sharey ro co n).groups
        (modelGY (canonicalArray arr emptycols emptyrows) sharey ro co n).bases (allBases sharex sharey (modelGX (canonicalArray arr emptycols emptyrows) sharex ro co n).bases (modelGY (canonicalArray arr emptycols emptyrows) sharey ro co n).bases) i0 i b hstep
    subst ha
    exact ⟨hD, hneq, heq⟩
  · intro i sx2 sy2 hmem
    obtain ⟨i0, hi0, hstep⟩ := List.mem_flatMap.mp hmem
    obtain ⟨ha, hD, hsx2, hsy2⟩ :=
      mem_stepEvents_createDep sharex sharey (modelGX (canonicalArray arr emptycols emptyrows) sharex ro co n).groups (modelGX (canonicalArray arr emptycols emptyrows) sharex ro co n).bases (modelGY (canonicalArray arr emptycols emptyrows) sharey ro co n).groups
        (modelGY (canonicalArray arr emptycols emptyrows) sharey ro co n).bases (allBases sharex sharey (modelGX (canonicalArray arr emptycols emptyrows) sharex ro co n).bases (modelGY (canonicalArray arr emptycols emptyrows) sharey ro co n).bases) i0 i sx2 sy2 hstep
    subst ha
    exact ⟨hD, hsx2, hsy2⟩


/-! ### Base-selection characterisation for the two sharing scans -/

theorem xShare_base_props (xr yr : List (Nat × Nat)) (p : List Nat × Nat)
    (hp : p ∈ (xShare xr yr).groups.zip (xShare xr yr).bases) :
    p.2 ∈ p.1 ∧
    (∀ j ∈ p.1, (yr.getD j (0, 0)).2 ≤ (yr.getD p.2 (0, 0)).2) ∧
    (∀ j ∈ p.1, (yr.getD j (0, 0)).2 = (yr.getD p.2 (0, 0)).2 → p.2 ≤ j) := by
  have hpick := (buildGroups_inv xr
    (argmaxFirst (fun j => (yr.getD j (0, 0)).2))
    (fun g => (sortByKey (fun j => (yr.getD j (0, 0)).2) g).reverse)).basePick p hp
  have hg : p.1 ∈ (xShare xr yr).groups := (List.of_mem_zip hp).1
  have hcard := buildGroups_card xr _ _ _ hg
  have hne : p.1 ≠ [] := by
    intro hnil
    rw [hnil] at hcard
    simp at hcard
  have hsorted := buildGroups_group_sorted xr _ _ _ hg
  rw [hpick]
  exact ⟨argmaxFirst_mem (fun j => (yr.getD j (0, 0)).2) p.1 hne,
    le_argmaxFirst (fun j => (yr.getD j (0, 0)).2) p.1,
    argmaxFirst_min_of_tie (fun j => (yr.getD j (0, 0)).2) p.1 hsorted⟩

theorem yShare_base_props (xr yr : List (Nat × Nat)) (p : List Nat × Nat)
    (hp : p ∈ (yShare xr yr).groups.zip (yShare xr yr).bases) :
    p.2 ∈ p.1 ∧
    (∀ j ∈ p.1, (xr.getD p.2 (0, 0)).1 ≤ (xr.getD j (0, 0)).1) ∧
    (∀ j ∈ p.1, (xr.getD j (0, 0)).1 = (xr.getD p.2 (0, 0)).1 → p.2 ≤ j) := by
  have hpick := (buildGroups_inv yr
    (argminFirst (fun j => (xr.getD j (0, 0)).1))
    (sortByKey (fun j => (xr.getD j (0, 0)).1))).basePick p hp
  have hg : p.1 ∈ (yShare xr yr).groups := (List.of_mem_zip hp).1
  have hcard := buildGroups_card yr _ _ _ hg
  have hne : p.1 ≠ [] := by
    intro hnil
    rw [hnil] at hcard
    simp at hcard
  have hsorted := buildGroups_group_sorted yr _ _ _ hg
  rw [hpick]
  exact ⟨argminFirst_mem (fun j => (xr.getD j (0, 0)).1) p.1 hne,
    argminFirst_le (fun j => (xr.getD j (0, 0)).1) p.1,
    argminFirst_min_of_tie (fun j => (xr.getD j (0, 0)).1) p.1 hsorted⟩

/-- C1: the grouper records a group only when more than one panel shares an
identical extent pair on the relevant axis (and the recorded group is the full
maximal set of panels with that extent); the base of an x-group is the member
with the largest row-extent upper bound and the base of a y-group the member
with the smallest column-extent lower bound, ties broken by the first such
member in id order (groups are listed in ascending id order, so the smallest
tied id wins); and re-running the grouping on the same input yields the same
group state, bases and sorted orders included. -/
theorem claim_C1_grouper_bases (xr yr : List (Nat × Nat)) :
    (xShare xr yr = xShare xr yr ∧ yShare xr yr = yShare xr yr) ∧
    (∀ g ∈ (xShare xr yr).groups, 1 < g.length ∧
      (∀ j1 ∈ g, ∀ j2 ∈ g, xr.getD j1 (0, 0) = xr.getD j2 (0, 0)) ∧
      (∀ j1 ∈ g, ∀ j2, j2 < xr.length → xr.getD j2 (0, 0) = xr.getD j1 (0, 0) →
        j2 ∈ g)) ∧
    (∀ g ∈ (yShare xr yr).groups, 1 < g.length ∧
      (∀ j1 ∈ g, ∀ j2 ∈ g, yr.getD j1 (0, 0) = yr.getD j2 (0, 0)) ∧
      (∀ j1 ∈ g, ∀ j2, j2 < yr.length → yr.getD j2 (0, 0) = yr.getD j1 (0, 0) →
        j2 ∈ g)) ∧
    (∀ p ∈ (xShare xr yr).groups.zip (xShare xr yr).bases,
      p.2 ∈ p.1 ∧
      (∀ j ∈ p.1, (yr.getD j (0, 0)).2 ≤ (yr.getD p.2 (0, 0)).2) ∧
      (∀ j ∈ p.1, (yr.getD j (0, 0)).2 = (yr.getD p.2 (0, 0)).2 → p.2 ≤ j)) ∧
    (∀ p ∈ (yShare xr yr).groups.zip (yShare xr yr).bases,
      p.2 ∈ p.1 ∧
      (∀ j ∈ p.1, (xr.getD p.2 (0, 0)).1 ≤ (xr.getD j (0, 0)).1) ∧
      (∀ j ∈ p.1, (xr.getD j (0, 0)).1 = (xr.getD p.2 (0, 0)).1 → p.2 ≤ j)) := by
  refine ⟨⟨rfl, rfl⟩, ?_, ?_, xShare_base_props xr yr, yShare_base_props xr yr⟩
  · intro g hg
    refine ⟨buildGroups_card xr _ _ g hg, ?_, ?_⟩
    · intro j1 h1 j2 h2
      exact buildGroups_extent_eq xr _ _ g hg j1 j2 h1 h2
    · intro j1 h1 j2 h2 h3
      exact buildGroups_maximal xr _ _ g hg j1 j2 h1 h2 h3
  · intro g hg
    refine ⟨buildGroups_card yr _ _ g hg, ?_, ?_⟩
    · intro j1 h1 j2 h2
      exact buildGroups_extent_eq yr _ _ g hg j1 j2 h1 h2
    · intro j1 h1 j2 h2 h3
      exact buildGroups_maximal yr _ _ g hg j1 j2 h1 h2 h3

/-- C3: the recorded sharing groups of a grouping scan are pairwise disjoint
(a panel id lies in at most one x-group, and likewise for y-groups) — this is
the invariant the claim asserts.  But the post-draw check of lines 368-373
cannot detect any violation: its membership test compares an axes *handle*
against integer ids (always `False` in Python) and its loop body tests
`xgroups` in both branches of the zip, so `checkGroups` returns `true` on
every input — including a list of overlapping groups, as the concrete final
conjunct shows. -/
theorem claim_C3_disjoint_groups_vacuous_check :
    (∀ (ext : List (Nat × Nat)) (pick : List Nat → Nat)
      (srt : List Nat → List Nat) (k1 k2 j : Nat),
      k1 < (buildGroups ext pick srt).groups.length →
      k2 < (buildGroups ext pick srt).groups.length → k1 ≠ k2 →
      j ∈ (buildGroups ext pick srt).groups.getD k1 [] →
      j ∉ (buildGroups ext pick srt).groups.getD k2 []) ∧
    (∀ (axs : List Handle) (xgroups ygroups : List (List Nat)),
      checkGroups axs xgroups ygroups = true) ∧
    checkGroups [⟨0⟩, ⟨1⟩, ⟨2⟩] [[0, 1], [0, 2]] [] = true := by
  have hall : ∀ (axs : List Handle) (xgroups ygroups : List (List Nat)),
      checkGroups axs xgroups ygroups = true := by
    intro axs xgroups ygroups
    simp [checkGroups, handleInIdGroup]
  refine ⟨?_, hall, hall _ _ _⟩
  intro ext pick srt k1 k2 j hk1 hk2 hne h1 h2
  exact buildGroups_disjoint ext pick srt k1 k2 j hk1 hk2 hne h1 h2

/-! ### Extent coverage (C4) -/

theorem mem_cellsOf (grid : List (List Int)) (v : Int) (r c : Nat)
    (hr : r < grid.length) (hc : c < (grid.getD r []).length)
    (hv : (grid.getD r []).getD c 0 = v) : (r, c) ∈ cellsOf grid v := by
  unfold cellsOf
  rw [List.mem_flatMap]
  refine ⟨r, List.mem_range.mpr hr, ?_⟩
  rw [List.mem_filterMap]
  exact ⟨c, List.mem_range.mpr hc, by rw [if_pos hv]⟩

/-- C4 (amended): the computed row/column extent of a panel covers every grid
cell bearing its value, and is tight: each of the four bounds is attained by
some cell of that value.  (The exclusion of other ids' cells claimed by the
spec fails for non-rectangular panels; see the counterexample.) -/
theorem claim_C4_extent_covers_tight (grid : List (List Int)) (v : Int)
    (ro co r c : Nat) (hr : r < grid.length)
    (hc : c < (grid.getD r []).length) (hv : (grid.getD r []).getD c 0 = v) :
    ((rowExtent ro (cellsOf grid v)).1 ≤ ro + r ∧
      ro + r < (rowExtent ro (cellsOf grid v)).2) ∧
    ((colExtent co (cellsOf grid v)).1 ≤ co + c ∧
      co + c < (colExtent co (cellsOf grid v)).2) ∧
    (∃ rc ∈ cellsOf grid v, ro + rc.1 = (rowExtent ro (cellsOf grid v)).1) ∧
    (∃ rc ∈ cellsOf grid v, ro + rc.1 + 1 = (rowExtent ro (cellsOf grid v)).2) ∧
    (∃ rc ∈ cellsOf grid v, co + rc.2 = (colExtent co (cellsOf grid v)).1) ∧
    (∃ rc ∈ cellsOf grid v, co + rc.2 + 1 = (colExtent co (cellsOf grid v)).2) := by
  have hmem : (r, c) ∈ cellsOf grid v := mem_cellsOf grid v r c hr hc hv
  have hrmem : r ∈ (cellsOf grid v).map Prod.fst :=
    List.mem_map.mpr ⟨(r, c), hmem, rfl⟩
  have hcmem : c ∈ (cellsOf grid v).map Prod.snd :=
    List.mem_map.mpr ⟨(r, c), hmem, rfl⟩
  have hner : (cellsOf grid v).map Prod.fst ≠ [] := by
    intro hnil
    rw [hnil] at hrmem
    cases hrmem
  have hnec : (cellsOf grid v).map Prod.snd ≠ [] := by
    intro hnil
    rw [hnil] at hcmem
    cases hcmem
  refine ⟨⟨?_, ?_⟩, ⟨?_, ?_⟩, ?_, ?_, ?_, ?_⟩
  · exact Nat.add_le_add_left (listMin_le _ r hrmem) ro
  · have := le_listMax _ r hrmem
    unfold rowExtent
    omega
  · exact Nat.add_le_add_left (listMin_le _ c hcmem) co
  · have := le_listMax _ c hcmem
    unfold colExtent
    omega
  · have hm := listMin_mem _ hner
    obtain ⟨rc, hrc, heq⟩ := List.mem_map.mp hm
    refine ⟨rc, hrc, ?_⟩
    unfold rowExtent
    rw [heq]
  · have hm := listMax_mem _ hner
    obtain ⟨rc, hrc, heq⟩ := List.mem_map.mp hm
    refine ⟨rc, hrc, ?_⟩
    unfold rowExtent
    rw [heq]
  · have hm := listMin_mem _ hnec
    obtain ⟨rc, hrc, heq⟩ := List.mem_map.mp hm
    refine ⟨rc, hrc, ?_⟩
    unfold colExtent
    rw [heq]
  · have hm := listMax_mem _ hnec
    obtain ⟨rc, hrc, heq⟩ := List.mem_map.mp hm
    refine ⟨rc, hrc, ?_⟩
    unfold colExtent
    rw [heq]

/-- C4 (counterexample): in the arrangement `[[1,2],[2,1]]`, panel 1 occupies
the two diagonal cells, so its bounding extents are the whole grid; the cell
`(0,1)` bears panel 2's id, yet lies strictly inside panel 1's row and column
extents — the claimed exclusion of other ids' cells is false. -/
theorem claim_C4_counterexample :
    (([[1, 2], [2, 1]] : List (List Int)).getD 0 []).getD 1 0 = 2 ∧
    rowExtent 0 (cellsOf [[1, 2], [2, 1]] 1) = (0, 2) ∧
    colExtent 0 (cellsOf [[1, 2], [2, 1]] 1) = (0, 2) ∧
    (rowExtent 0 (cellsOf [[1, 2], [2, 1]] 1)).1 ≤ 0 ∧
    0 < (rowExtent 0 (cellsOf [[1, 2], [2, 1]] 1)).2 ∧
    (colExtent 0 (cellsOf [[1, 2], [2, 1]] 1)).1 ≤ 1 ∧
    1 < (colExtent 0 (cellsOf [[1, 2], [2, 1]] 1)).2 := by
  refine ⟨rfl, rfl, rfl, ?_, ?_, ?_, ?_⟩ <;> decide

/-! ### The numbering rule (C5) -/

theorem mem_nonzeroUnique (grid : List (List Int)) (v : Int) :
    v ∈ nonzeroUnique grid ↔ (∃ row ∈ grid, v ∈ row) ∧ v ≠ 0 := by
  rw [nonzeroUnique, mem_uniqueSorted, List.mem_filter]
  simp [List.mem_flatMap]

theorem rangeMap_sorted (n : Nat) :
    List.Pairwise (· < ·) ((List.range n).map (fun k => Int.ofNat (k + 1))) := by
  refine List.Pairwise.map _ ?_ (List.pairwise_lt_range n)
  intro a b hab
  simp only [Int.ofNat_eq_coe]
  omega

theorem mem_rangeMap (n : Nat) (v : Int) :
    v ∈ (List.range n).map (fun k => Int.ofNat (k + 1)) ↔ 1 ≤ v ∧ v ≤ (n : Int) := by
  rw [List.mem_map]
  constructor
  · rintro ⟨k, hk, rfl⟩
    have := List.mem_range.mp hk
    simp only [Int.ofNat_eq_coe]
    omega
  · rintro ⟨h1, h2⟩
    refine ⟨v.toNat - 1, List.mem_range.mpr (by omega), ?_⟩
    simp only [Int.ofNat_eq_coe]
    omega

/-- C5 (amended): `normalizeCheck` succeeds with panel count `n` exactly when
the **nonzero** (not merely positive) cell values of the grid are exactly
`{1, …, n}` with `n` the number of distinct nonzero values; otherwise it fails
with the skip-over error and no panels are built. -/
theorem claim_C5_nonzero_numbering (grid : List (List Int)) :
    (∀ n, normalizeCheck grid = .ok n ↔
      (n = (nonzeroUnique grid).length ∧
       ∀ v : Int, ((∃ row ∈ grid, v ∈ row) ∧ v ≠ 0) ↔ (1 ≤ v ∧ v ≤ (n : Int)))) ∧
    (normalizeCheck grid = .ok (nonzeroUnique grid).length ∨
      normalizeCheck grid = .error
        "Axes numbers must span integers 1 to num_axes (i.e. cannot skip over numbers).") := by
  constructor
  · intro n
    constructor
    · intro h
      simp only [normalizeCheck] at h
      split at h
      · rename_i hcond
        injection h with hn
        subst hn
        refine ⟨rfl, ?_⟩
        intro v
        rw [← mem_nonzeroUnique grid v, hcond, mem_rangeMap]
        simp
      · cases h
    · rintro ⟨hn, hmem⟩
      subst hn
      simp only [normalizeCheck]
      have hEq : nonzeroUnique grid =
          (List.range (nonzeroUnique grid).length).map (fun k => Int.ofNat (k + 1)) := by
        have hs1 : List.Pairwise (· < ·) (nonzeroUnique grid) := uniqueSorted_sorted _
        apply strict_sorted_ext _ _ hs1 (rangeMap_sorted _)
        intro v
        rw [mem_nonzeroUnique, mem_rangeMap, hmem v]
      rw [if_pos hEq]
  · simp only [normalizeCheck]
    split
    · left; rfl
    · right; rfl

/-- C5 (counterexample): the grid `[[-1,1],[1,2]]` has distinct **positive**
values exactly `{1,2}`, so the claim says normalisation succeeds with `N = 2`;
but the code collects the **nonzero** values `{-1,1,2}` and raises the
skip-over error. -/
theorem claim_C5_counterexample :
    positiveUnique [[-1, 1], [1, 2]] = [1, 2] ∧
    normalizeCheck [[-1, 1], [1, 2]] = .error
      "Axes numbers must span integers 1 to num_axes (i.e. cannot skip over numbers)." :=
  ⟨rfl, rfl⟩

/-! ### Per-panel property resolution (C6) -/

/-- C6 (amended): the resolver expands `{1: 'a', (2,3): 'b'}` over `N = 3` to
one entry per 0-based position; and whenever some panel id in `1..N` receives
no entry, it raises the error — whose payload names the **present** 1-based
ids (sorted), not the absent ones. -/
theorem claim_C6_resolver_error_names_present :
    (axes_dict 3 [([1], "a"), ([2, 3], "b")] = .ok [(0, "a"), (1, "b"), (2, "b")]) ∧
    (∀ (α : Type) (num_axes : Nat) (value : List (List Int × α)) (id : Int),
      1 ≤ id → id ≤ (num_axes : Int) →
      (id - 1) ∉ (unfurl value).map Prod.fst →
      ∃ present, axes_dict num_axes value = .error (num_axes, present) ∧
        id ∉ present ∧
        ∀ q ∈ present, (q - 1) ∈ (unfurl value).map Prod.fst) := by
  constructor
  · rfl
  · intro α num_axes value id h1 h2 hnot
    have hne : ((unfurl value).map Prod.fst).toFinset ≠
        ((List.range num_axes).map (fun k => Int.ofNat k)).toFinset := by
      intro hcon
      apply hnot
      have hmemr : (id - 1) ∈ (List.range num_axes).map (fun k => Int.ofNat k) := by
        rw [List.mem_map]
        refine ⟨(id - 1).toNat, List.mem_range.mpr (by omega), ?_⟩
        simp only [Int.ofNat_eq_coe]
        omega
      have hmemf : (id - 1) ∈ ((unfurl value).map Prod.fst).toFinset := by
        rw [hcon]
        exact List.mem_toFinset.mpr hmemr
      exact List.mem_toFinset.mp hmemf
    refine ⟨(uniqueSorted ((unfurl value).map Prod.fst)).map (fun i => i + 1),
      ?_, ?_, ?_⟩
    · simp only [axes_dict]
      rw [if_neg hne]
    · intro hmem
      rw [List.mem_map] at hmem
      obtain ⟨q0, hq0, heq⟩ := hmem
      apply hnot
      have hq : q0 = id - 1 := by omega
      rw [← hq]
      exact (mem_uniqueSorted _ _).mp hq0
    · intro q hq
      rw [List.mem_map] at hq
      obtain ⟨q0, hq0, heq⟩ := hq
      have hqe : q - 1 = q0 := by omega
      rw [hqe]
      exact (mem_uniqueSorted _ _).mp hq0

/-- C6 (counterexample): `{1: 'a', 2: 'b'}` over `N = 3` omits panel 3; the
claim says the error names the absent id 3, but the raised error carries the
present ids `[1, 2]` and does not mention 3. -/
theorem claim_C6_counterexample :
    axes_dict 3 [([1], "a"), ([2], "b")] = .error (3, [1, 2]) ∧
    (3 : Int) ∉ ([1, 2] : List Int) :=
  ⟨rfl, by decide⟩

/-! ### Panel strips (C7) -/

/-- C7 (amended): for a nonempty label array, `_paneladd` creates one strip
per **distinct label value including 0** (`np.unique` order), each strip
spanning `[offset + min(idx), offset + max(idx) + 1)` over the positions
bearing that label, so every position is covered by its label's strip. -/
theorem claim_C7_strip_per_label (offset : Nat) (panels : List Int)
    (hne : panels ≠ []) :
    (paneladd offset panels).length = (uniqueSorted panels).length ∧
    (∀ nval ∈ uniqueSorted panels,
      (offset + listMin ((List.range panels.length).filter
          (fun j => panels.getD j 0 = nval)),
       offset + listMax ((List.range panels.length).filter
          (fun j => panels.getD j 0 = nval)) + 1) ∈ paneladd offset panels) ∧
    (∀ j, j < panels.length → ∃ sp ∈ paneladd offset panels,
      sp.1 ≤ offset + j ∧ offset + j < sp.2) := by
  have hpa : paneladd offset panels = (uniqueSorted panels).map (fun n =>
      let idx := (List.range panels.length).filter (fun j => panels.getD j 0 = n)
      (offset + listMin idx, offset + listMax idx + 1)) := by
    rw [paneladd, if_neg hne]
  refine ⟨by rw [hpa, List.length_map], ?_, ?_⟩
  · intro nval hnv
    rw [hpa]
    exact List.mem_map.mpr ⟨nval, hnv, rfl⟩
  · intro j hj
    have hval : panels.getD j 0 ∈ panels := by
      rw [List.getD_eq_getElem _ _ hj]
      exact List.getElem_mem hj
    have hnv : panels.getD j 0 ∈ uniqueSorted panels :=
      (mem_uniqueSorted panels _).mpr hval
    have hjidx : j ∈ (List.range panels.length).filter
        (fun j2 => panels.getD j2 0 = panels.getD j 0) :=
      List.mem_filter.mpr ⟨List.mem_range.mpr hj, by simp⟩
    refine ⟨(offset + listMin ((List.range panels.length).filter
        (fun j2 => panels.getD j2 0 = panels.getD j 0)),
      offset + listMax ((List.range panels.length).filter
        (fun j2 => panels.getD j2 0 = panels.getD j 0)) + 1), ?_, ?_, ?_⟩
    · rw [hpa]
      exact List.mem_map.mpr ⟨panels.getD j 0, hnv, rfl⟩
    · exact Nat.add_le_add_left (listMin_le _ j hjidx) offset
    · have := le_listMax _ j hjidx
      omega

/-- C7 (counterexample): labels `[1,1,0,2]` with offset 0 produce **three**
strips, `[2,3)` for label 0 first (the unique values are scanned in sorted
order), then `[0,2)` and `[3,4)` — not the two strips the claim asserts, and
label 0 is not skipped. -/
theorem claim_C7_counterexample :
    paneladd 0 [1, 1, 0, 2] = [(2, 3), (0, 2), (3, 4)] ∧
    (paneladd 0 [1, 1, 0, 2]).length = 3 :=
  ⟨rfl, rfl⟩

/-! ### Broadcasting over the handle collection (C8) -/

/-- C8: `__getattr__` on the handle collection: when every handle has the
attribute and all are callable, invoking the broadcast fans out in handle
order and keeps non-`None` results — no result gives `None`, a single result
is unwrapped, several are returned as a collection; an attribute that is
callable on one handle and a plain value on another raises the mixed error. -/
theorem claim_C8_broadcast (α : Type) (l : AxesList (Slot α)) :
    ((∀ s ∈ l.toList, s.isMissing = false) →
     (∃ s ∈ l.toList, s.isMethod = true) →
     (∃ s ∈ l.toList, s.isMethod = false) →
      l.getattrBroadcast = .error "Mixed methods found.") ∧
    ((∀ s ∈ l.toList, s.isMethod = true) →
      ((l.toList.filterMap (fun s => match s with
          | Slot.method r => r | _ => none) = [] →
        l.getattrBroadcast = .ok GetattrOutcome.invokedNone) ∧
       (∀ r, l.toList.filterMap (fun s => match s with
          | Slot.method r2 => r2 | _ => none) = [r] →
        l.getattrBroadcast = .ok (GetattrOutcome.invokedOne r)) ∧
       (2 ≤ (l.toList.filterMap (fun s => match s with
          | Slot.method r => r | _ => none)).length →
        l.getattrBroadcast = .ok (GetattrOutcome.invokedMany
          (l.toList.filterMap (fun s => match s with
            | Slot.method r => r | _ => none)))))) := by
  constructor
  · intro h1 h2 h3
    obtain ⟨sm, hsm, hsm2⟩ := h2
    obtain ⟨sf, hsf, hsf2⟩ := h3
    have hany : ¬(l.toList.any Slot.isMissing = true) := by
      rw [List.any_eq_true]
      rintro ⟨s, hs, htrue⟩
      rw [h1 s hs] at htrue
      cases htrue
    have hallm : ¬(l.toList.all Slot.isMethod = true) := by
      rw [List.all_eq_true]
      intro hall
      rw [hall sf hsf] at hsf2
      cases hsf2
    have hallf : ¬(l.toList.all (fun s => ¬s.isMethod) = true) := by
      rw [List.all_eq_true]
      intro hall
      have := hall sm hsm
      simp [hsm2] at this
    simp only [AxesList.getattrBroadcast]
    rw [if_neg hany, if_neg hallm, if_neg hallf]
  · intro hall
    have hany : ¬(l.toList.any Slot.isMissing = true) := by
      rw [List.any_eq_true]
      rintro ⟨s, hs, htrue⟩
      have hm := hall s hs
      cases s <;> simp [Slot.isMethod] at hm <;> simp [Slot.isMissing] at htrue
    have hallm : l.toList.all Slot.isMethod = true := by
      rw [List.all_eq_true]
      exact hall
    refine ⟨?_, ?_, ?_⟩
    · intro hret
      simp only [AxesList.getattrBroadcast]
      rw [if_neg hany, if_pos hallm, hret]
    · intro r hret
      simp only [AxesList.getattrBroadcast]
      rw [if_neg hany, if_pos hallm, hret]
    · intro hlen
      simp only [AxesList.getattrBroadcast]
      rw [if_neg hany, if_pos hallm]
      cases hret : l.toList.filterMap (fun s => match s with
          | Slot.method r => r | _ => none) with
      | nil =>
        rw [hret] at hlen
        simp at hlen
      | cons r rest =>
        cases rest with
        | nil =>
          rw [hret] at hlen
          simp at hlen
        | cons r2 rest2 => rfl

/-! ### `None` cells behave as 0 (C9) -/

/-- C9: replacing `None` cells happens before the empty-row/column masking
and the numbering validation: the whole pipeline (canonical array, validation
and all downstream steps) is unchanged when each `None` cell is replaced by an
explicit 0, and every value the validation sees comes from an actual non-`None`
nonzero cell — so `None` entries never count as panel ids and never fail the
validation by themselves. -/
theorem claim_C9_none_is_zero (arr : List (List (Option Int)))
    (emptycols emptyrows : List Nat) (sharex sharey : Bool) (ro co : Nat) :
    canonicalArray arr emptycols emptyrows =
      canonicalArray (arr.map (fun row => row.map
        (fun c => if c = none then some 0 else c))) emptycols emptyrows ∧
    normalizeCheck (canonicalArray arr emptycols emptyrows) =
      normalizeCheck (canonicalArray (arr.map (fun row => row.map
        (fun c => if c = none then some 0 else c))) emptycols emptyrows) ∧
    subplotsModel arr emptycols emptyrows sharex sharey ro co =
      subplotsModel (arr.map (fun row => row.map
        (fun c => if c = none then some 0 else c))) emptycols emptyrows
        sharex sharey ro co ∧
    (∀ v ∈ nonzeroUnique (replaceNone arr), v ≠ 0 ∧ ∃ row ∈ arr, some v ∈ row) := by
  have hrn : replaceNone arr = replaceNone (arr.map (fun row => row.map
      (fun c => if c = none then some 0 else c))) := by
    unfold replaceNone
    rw [List.map_map]
    apply List.map_congr_left
    intro row _
    simp only [Function.comp]
    rw [List.map_map]
    apply List.map_congr_left
    intro c _
    simp only [Function.comp]
    cases c <;> rfl
  have hca : canonicalArray arr emptycols emptyrows =
      canonicalArray (arr.map (fun row => row.map
        (fun c => if c = none then some 0 else c))) emptycols emptyrows := by
    unfold canonicalArray
    rw [hrn]
  refine ⟨hca, by rw [hca], by simp only [subplotsModel]; rw [hca], ?_⟩
  intro v hv
  have hmem := (mem_nonzeroUnique (replaceNone arr) v).mp hv
  obtain ⟨⟨row2, hrow2, hvrow⟩, hvne⟩ := hmem
  refine ⟨hvne, ?_⟩
  unfold replaceNone at hrow2
  obtain ⟨row, hrow, hrweq⟩ := List.mem_map.mp hrow2
  rw [← hrweq] at hvrow
  obtain ⟨c, hc, hceq⟩ := List.mem_map.mp hvrow
  refine ⟨row, hrow, ?_⟩
  cases c with
  | none =>
    simp at hceq
    exact absurd hceq.symm hvne
  | some a =>
    simp at hceq
    rw [hceq] at hc
    exact hc

/-! ### Collection indexing (C10) -/

/-- C10: indexing the handle collection with a slice returns a collection of
the same `axes_list` type (on which the broadcast of C8 is again available),
while indexing with an in-range integer returns the bare handle. -/
theorem claim_C10_getitem (α : Type) (l : AxesList α) (a b i : Nat)
    (h : i < l.toList.length) :
    AxesList.getitem l (Key.slc a b) =
      some (Item.many ⟨(l.toList.drop a).take (b - a)⟩) ∧
    AxesList.getitem l (Key.idx i) = some (Item.one (l.toList.get ⟨i, h⟩)) := by
  constructor
  · rfl
  · simp [AxesList.getitem, List.get?_eq_get h]

/-! ### Concrete witnesses -/

/-- Witness for C1 at the arrangement `[[1,2],[1,3]]` (column extents
`[(0,1),(1,2),(1,2)]`, row extents `[(0,1),(0,1),(1,2)]`): the x-group is
`[1,2]` with base 2, and the base's row-extent upper bound dominates the
group. -/
theorem claim_C1_witness :
    ((2 : Nat) ∈ ([1, 2] : List Nat)) ∧
    ∀ j ∈ ([1, 2] : List Nat),
      (([(0, 1), (0, 1), (1, 2)] : List (Nat × Nat)).getD j (0, 0)).2 ≤
        (([(0, 1), (0, 1), (1, 2)] : List (Nat × Nat)).getD 2 (0, 0)).2 := by
  have h := claim_C1_grouper_bases [(0, 1), (1, 2), (1, 2)] [(0, 1), (0, 1), (1, 2)]
  have hp := h.2.2.2.1 ([1, 2], 2) (by decide)
  exact ⟨hp.1, hp.2.1⟩

/-- Witness for C2 at the arrangement `[[1,2],[1,3]]` with both sharing axes
on: the orchestrated run returns successfully. -/
theorem claim_C2_witness :
    ∃ r, subplotsModel [[some 1, some 2], [some 1, some 3]] [] [] true true 0 0 =
      .ok r := by
  obtain ⟨axs2, t1, t2, heq, _⟩ :=
    claim_C2_two_pass_draw_orchestration [[some 1, some 2], [some 1, some 3]]
      [] [] true true 0 0 3 (by rfl)
  exact ⟨_, heq⟩

/-- Witness for C4 at the arrangement `[[1,2],[2,1]]`: panel 1's row extent
covers its cell `(0,0)`. -/
theorem claim_C4_witness :
    (rowExtent 0 (cellsOf [[1, 2], [2, 1]] 1)).1 ≤ 0 + 0 ∧
    0 + 0 < (rowExtent 0 (cellsOf [[1, 2], [2, 1]] 1)).2 :=
  (claim_C4_extent_covers_tight [[1, 2], [2, 1]] 1 0 0 0 0
    (by decide) (by decide) (by decide)).1

/-- Witness for C5 at the grid `[[1,2],[0,1]]`: validation succeeds and the
characterisation instantiates at the value 1. -/
theorem claim_C5_witness :
    (2 : Nat) = (nonzeroUnique [[1, 2], [0, 1]]).length ∧
    ((1 : Int) ≤ 1 ∧ (1 : Int) ≤ (2 : Int)) := by
  have h := ((claim_C5_nonzero_numbering [[1, 2], [0, 1]]).1 2).mp (by rfl)
  refine ⟨h.1, ?_⟩
  have h2 := (h.2 1).mp ⟨⟨[1, 2], by decide, by decide⟩, by decide⟩
  exact ⟨h2.1, by simpa using h2.2⟩

/-- Witness for C6 at `{1: 'a', 2: 'b'}` over 3 panels: the error payload
exists and does not name the absent id 3. -/
theorem claim_C6_witness :
    ∃ present, axes_dict 3 [([1], "a"), ([2], "b")] = .error (3, present) ∧
      (3 : Int) ∉ present := by
  obtain ⟨present, he, hni, _⟩ :=
    claim_C6_resolver_error_names_present.2 String 3 [([1], "a"), ([2], "b")] 3
      (by decide) (by decide) (by decide)
  exact ⟨present, he, hni⟩

/-- Witness for C7 at labels `[1,1,0,2]`: position 2 (the label-0 cell) is
covered by some allocated strip. -/
theorem claim_C7_witness :
    ∃ sp ∈ paneladd 0 [1, 1, 0, 2], sp.1 ≤ 0 + 2 ∧ 0 + 2 < sp.2 := by
  have h := claim_C7_strip_per_label 0 [1, 1, 0, 2] (by decide)
  exact h.2.2 2 (by decide)

/-- Witness for C8 on a two-handle collection mixing a method and a plain
attribute: the broadcast raises the mixed error. -/
theorem claim_C8_witness :
    AxesList.getattrBroadcast
      (⟨[Slot.method (some 5), Slot.field 3]⟩ : AxesList (Slot Nat)) =
      .error "Mixed methods found." :=
  (claim_C8_broadcast Nat ⟨[Slot.method (some 5), Slot.field 3]⟩).1
    (by decide) (by decide) (by decide)

/-- Witness for C9 on a grid with a `None` cell: the value 1 seen by the
validation comes from a real `some 1` cell. -/
theorem claim_C9_witness :
    (1 : Int) ≠ 0 ∧
    ∃ row ∈ [[some (1 : Int), none], [some 2, some 2]], some (1 : Int) ∈ row :=
  (claim_C9_none_is_zero [[some 1, none], [some 2, some 2]] [] [] true true 0 0).2.2.2
    1 (by decide)

/-- Witness for C10 on the collection `[10,20,30]`: integer indexing at 1
returns the bare element 20. -/
theorem claim_C10_witness :
    AxesList.getitem (⟨[10, 20, 30]⟩ : AxesList Nat) (Key.idx 1) =
      some (Item.one 20) := by
  have h := claim_C10_getitem Nat ⟨[10, 20, 30]⟩ 0 2 1 (by decide)
  simpa using h.2

end Proplot
